import Mathlib

set_option maxRecDepth 8192

/-!
Verification of the n8n-nodes-superiorapis package.

This file shallowly embeds the dynamic request builder of the SuperiorApis
node (nodes/SuperiorApis/SuperiorApis.node.ts) and the MCP transport client
(nodes/SuperiorApisMcp/SuperiorApisMcp.node.ts) and proves the testable
properties of the specification against that embedding.

Modelling conventions:
* JavaScript values flowing through the node are modelled by the `JVal`
  inductive (a JSON value tree).  JavaScript numbers are modelled as
  integers: every numeric payload the node manipulates is an id, a count
  or a timestamp, and float formatting is outside the scope of the
  embedding.
* JavaScript objects are modelled as association journals
  (`List (String × JVal)`): an assignment appends, a read takes the last
  binding, `delete` removes every binding of the key.  This reproduces
  read/write/delete semantics exactly; only the key enumeration order of
  overwritten keys differs, and nothing proved here depends on it.
* Fallible operations return `Option`/`Except`.
-/

namespace SuperiorApisProofs

/-- A JSON value, the model of the JavaScript values the node manipulates
(numbers as integers, see the file comment). -/
inductive JVal where
  | null : JVal
  | bool : Bool → JVal
  | num : Int → JVal
  | str : String → JVal
  | arr : List JVal → JVal
  | obj : List (String × JVal) → JVal

/-- Last-binding-wins key lookup, the read semantics of a JavaScript object
journal (and of duplicate keys under JSON.parse). -/
def jGet (k : String) : List (String × JVal) → Option JVal
  | [] => none
  | (k2, v) :: rest => match jGet k rest with
    | some v2 => some v2
    | none => if k2 = k then some v else none

/-- Property read on a JSON value: an object field access, `none` when the
value is not an object or lacks the key (JavaScript `undefined`). -/
def JVal.get (j : JVal) (k : String) : Option JVal :=
  match j with
  | .obj fields => jGet k fields
  | _ => none

/-- JavaScript truthiness of a modelled value. -/
def jsTruthy : JVal → Bool
  | .null => false
  | .bool b => b
  | .num n => n != 0
  | .str s => s ≠ ""
  | .arr _ => true
  | .obj _ => true

end SuperiorApisProofs

namespace SuperiorApisProofs

/-! JSON text: the serializer (JSON.stringify) and parser (JSON.parse)
used by the descriptor codec and by the body/header JSON parameters. -/

/-- Decimal digit character for a value below ten. -/
def digitChar (k : Nat) : Char := Char.ofNat (48 + k)

/-- Decimal digit characters, most significant first, by fuel-indexed
division (the fuel keeps the recursion structural; `natChars` supplies
enough of it for any value). -/
def natCharsAux : Nat → Nat → List Char
  | 0, _ => []
  | fuel + 1, n =>
    if n < 10 then [digitChar n]
    else natCharsAux fuel (n / 10) ++ [digitChar (n % 10)]

/-- Decimal digit characters of a natural number, most significant first. -/
def natChars (n : Nat) : List Char := natCharsAux (n + 1) n

/-- Decimal rendering of an integer: optional minus sign, then digits. -/
def intChars (i : Int) : List Char :=
  if i < 0 then '-' :: natChars i.natAbs else natChars i.natAbs

/-- Lowercase hexadecimal digit character for a value below sixteen. -/
def hexChar (k : Nat) : Char :=
  if k < 10 then Char.ofNat (48 + k) else Char.ofNat (87 + k)

/-- JSON.stringify escaping of one string character: quote, backslash and
the named control escapes get a backslash form, other control characters
become a u-escape, everything else is emitted verbatim. -/
def escChar (c : Char) : List Char :=
  if c = '"' then ['\\', '"']
  else if c = '\\' then ['\\', '\\']
  else if c = Char.ofNat 8 then ['\\', 'b']
  else if c = Char.ofNat 12 then ['\\', 'f']
  else if c = '\n' then ['\\', 'n']
  else if c = '\r' then ['\\', 'r']
  else if c = '\t' then ['\\', 't']
  else if c.toNat < 32 then
    ['\\', 'u', '0', '0', hexChar (c.toNat / 16), hexChar (c.toNat % 16)]
  else [c]

/-- Characters of a JSON string literal, quotes included. -/
def strChars (s : String) : List Char :=
  '"' :: (s.data.flatMap escChar ++ ['"'])

mutual

/-- Characters of the compact (no whitespace) JSON.stringify rendering. -/
def jChars : JVal → List Char
  | .null => "null".data
  | .bool true => "true".data
  | .bool false => "false".data
  | .num i => intChars i
  | .str s => strChars s
  | .arr es => '[' :: (jItemsChars es ++ [']'])
  | .obj fs => '{' :: (jFieldsChars fs ++ ['}'])

/-- Comma separated renderings of array elements. -/
def jItemsChars : List JVal → List Char
  | [] => []
  | [e] => jChars e
  | e :: es => jChars e ++ ',' :: jItemsChars es

/-- Comma separated renderings of object members. -/
def jFieldsChars : List (String × JVal) → List Char
  | [] => []
  | [(k, v)] => strChars k ++ ':' :: jChars v
  | (k, v) :: fs => strChars k ++ ':' :: (jChars v ++ ',' :: jFieldsChars fs)

end

/-- JSON.stringify of a modelled value (compact form). -/
def stringify (j : JVal) : String := String.mk (jChars j)

/-- Whitespace accepted between JSON tokens. -/
def jsonWs (c : Char) : Bool := c = ' ' || c = '\t' || c = '\n' || c = '\r'

/-- Drop leading JSON whitespace. -/
def dropWs : List Char → List Char
  | [] => []
  | c :: r => if jsonWs c then dropWs r else c :: r

/-- Decimal digit test. -/
def isDig (c : Char) : Bool := 48 ≤ c.toNat && c.toNat ≤ 57

/-- Split a leading run of decimal digits off the input. -/
def digRun : List Char → List Char × List Char
  | [] => ([], [])
  | c :: r =>
    if isDig c then
      let p := digRun r
      (c :: p.1, p.2)
    else ([], c :: r)

/-- Numeric value of a digit run. -/
def digVal (ds : List Char) : Nat :=
  ds.foldl (fun a c => a * 10 + (c.toNat - 48)) 0

/-- Value of one hexadecimal digit character. -/
def hexNib (c : Char) : Option Nat :=
  if 48 ≤ c.toNat ∧ c.toNat ≤ 57 then some (c.toNat - 48)
  else if 97 ≤ c.toNat ∧ c.toNat ≤ 102 then some (c.toNat - 87)
  else if 65 ≤ c.toNat ∧ c.toNat ≤ 70 then some (c.toNat - 55)
  else none

/-- Named single-character JSON escapes (the inverse of the backslash
forms emitted by `escChar`, plus the solidus the grammar allows). -/
def unescCtrl : Char → Option Char
  | '"' => some '"'
  | '\\' => some '\\'
  | '/' => some '/'
  | 'b' => some (Char.ofNat 8)
  | 'f' => some (Char.ofNat 12)
  | 'n' => some '\n'
  | 'r' => some '\r'
  | 't' => some '\t'
  | _ => none

/-- Read a JSON string body after its opening quote, returning the decoded
characters and the input after the closing quote.  A u-escape denoting a
surrogate half is rejected (a JavaScript string could carry it, a scalar
string cannot; the serializer never emits one). -/
def strBody : List Char → Option (List Char × List Char)
  | [] => none
  | c :: r =>
    if c = '"' then some ([], r)
    else if c = '\\' then
      match r with
      | [] => none
      | e :: r2 =>
        if e = 'u' then
          match r2 with
          | a :: b :: c3 :: d :: r3 =>
            match hexNib a, hexNib b, hexNib c3, hexNib d with
            | some va, some vb, some vc, some vd =>
              let n := ((va * 16 + vb) * 16 + vc) * 16 + vd
              if n < 55296 ∨ (57343 < n ∧ n < 1114112) then
                match strBody r3 with
                | some (cs, rest) => some (Char.ofNat n :: cs, rest)
                | none => none
              else none
            | _, _, _, _ => none
          | _ => none
        else
          match unescCtrl e with
          | some u =>
            match strBody r2 with
            | some (cs, rest) => some (u :: cs, rest)
            | none => none
          | none => none
    else
      match strBody r with
      | some (cs, rest) => some (c :: cs, rest)
      | none => none

/-- Read a JSON integer: optional minus sign then a digit run (numbers are
modelled as integers, see the file comment). -/
def readInt : List Char → Option (Int × List Char)
  | [] => none
  | c :: r =>
    if c = '-' then
      match digRun r with
      | ([], _) => none
      | (ds, rest) => some (-(digVal ds : Int), rest)
    else
      match digRun (c :: r) with
      | ([], _) => none
      | (ds, rest) => some ((digVal ds : Int), rest)

mutual

/-- Fuel-indexed JSON value reader; consumes the value and returns the
rest of the input. -/
def parseV : Nat → List Char → Option (JVal × List Char)
  | 0, _ => none
  | fuel + 1, cs =>
    match dropWs cs with
    | [] => none
    | c :: r =>
      if c = 'n' then
        match r with
        | 'u' :: 'l' :: 'l' :: r2 => some (.null, r2)
        | _ => none
      else if c = 't' then
        match r with
        | 'r' :: 'u' :: 'e' :: r2 => some (.bool true, r2)
        | _ => none
      else if c = 'f' then
        match r with
        | 'a' :: 'l' :: 's' :: 'e' :: r2 => some (.bool false, r2)
        | _ => none
      else if c = '"' then
        match strBody r with
        | some (cs2, rest) => some (.str (String.mk cs2), rest)
        | none => none
      else if c = '[' then
        match dropWs r with
        | [] => none
        | d :: r2 =>
          if d = ']' then some (.arr [], r2)
          else
            match parseItems fuel (d :: r2) with
            | some (es, rest) => some (.arr es, rest)
            | none => none
      else if c = '{' then
        match dropWs r with
        | [] => none
        | d :: r2 =>
          if d = '}' then some (.obj [], r2)
          else
            match parseFields fuel (d :: r2) with
            | some (fs, rest) => some (.obj fs, rest)
            | none => none
      else if c = '-' || isDig c then
        match readInt (c :: r) with
        | some (i, rest) => some (.num i, rest)
        | none => none
      else none

/-- Reader of one or more comma separated array elements, consuming the
closing bracket. -/
def parseItems : Nat → List Char → Option (List JVal × List Char)
  | 0, _ => none
  | fuel + 1, cs =>
    match parseV fuel cs with
    | none => none
    | some (v, r) =>
      match dropWs r with
      | [] => none
      | d :: r2 =>
        if d = ',' then
          match parseItems fuel (dropWs r2) with
          | some (vs, rest) => some (v :: vs, rest)
          | none => none
        else if d = ']' then some ([v], r2)
        else none

/-- Reader of one or more comma separated object members, consuming the
closing brace. -/
def parseFields : Nat → List Char → Option (List (String × JVal) × List Char)
  | 0, _ => none
  | fuel + 1, cs =>
    match dropWs cs with
    | [] => none
    | d :: r =>
      if d = '"' then
        match strBody r with
        | none => none
        | some (kcs, r1) =>
          match dropWs r1 with
          | [] => none
          | d2 :: r2 =>
            if d2 = ':' then
              match parseV fuel (dropWs r2) with
              | none => none
              | some (v, r3) =>
                match dropWs r3 with
                | [] => none
                | d3 :: r4 =>
                  if d3 = ',' then
                    match parseFields fuel (dropWs r4) with
                    | some (fs, rest) => some ((String.mk kcs, v) :: fs, rest)
                    | none => none
                  else if d3 = '}' then some ([(String.mk kcs, v)], r4)
                  else none
            else none
      else none

end

/-- JSON.parse of a character list: one value, then nothing but
whitespace. -/
def parseChars (cs : List Char) : Option JVal :=
  match parseV (cs.length + 1) cs with
  | some (j, r) => if dropWs r = [] then some j else none
  | none => none

/-- JSON.parse of a string (`none` models the thrown SyntaxError). -/
def parseJson (s : String) : Option JVal := parseChars s.data

/-- A remainder on which a digit run stops: empty, or headed by a
non-digit.  Every delimiter the serializer emits after a number — a
comma, a closing bracket or brace, or the end of input — qualifies. -/
def numStop : List Char → Prop
  | [] => True
  | c :: _ => isDig c = false

end SuperiorApisProofs

namespace SuperiorApisProofs

/-! JavaScript object journal operations (see the file comment): an
assignment appends a binding, a read takes the last binding, a delete
removes all bindings of the key, and an object spread appends the spread
object's journal. -/

/-- Property assignment on a journal. -/
def jSet (k : String) (v : JVal) (o : List (String × JVal)) : List (String × JVal) :=
  o ++ [(k, v)]

/-- The delete operator on a journal. -/
def jDelete (k : String) (o : List (String × JVal)) : List (String × JVal) :=
  o.filter (fun kv => kv.1 ≠ k)

/-- Prefix test on character lists, matching on the pattern first (so
that an empty or exhausted pattern accepts without inspecting the rest of
the input). -/
def charsPrefix (pre s : List Char) : Bool :=
  match pre with
  | [] => true
  | c :: cs =>
    match s with
    | [] => false
    | d :: ds => c == d && charsPrefix cs ds

/-- JavaScript String.prototype.startsWith, on the character lists. -/
def jsStartsWith (s pre : String) : Bool := charsPrefix pre.data s.data

/-- Whitespace in the sense of String.prototype.trim. -/
def jsWsChar (c : Char) : Bool :=
  c = ' ' || c = '\t' || c = '\n' || c = '\r' ||
  c.toNat = 11 || c.toNat = 12 || c.toNat = 160 || c.toNat = 65279 ||
  c.toNat = 8232 || c.toNat = 8233

/-- JavaScript String.prototype.trim. -/
def jsTrim (s : String) : String :=
  String.mk (((s.data.dropWhile jsWsChar).reverse.dropWhile jsWsChar).reverse)

/-- JavaScript String.prototype.substring(n) / prefix-dropping replace,
counted in characters. -/
def jsDrop (s : String) (n : Nat) : String := String.mk (s.data.drop n)

/-- JavaScript String.prototype.toUpperCase (over the basic alphabet the
node uses it on). -/
def jsToUpper (s : String) : String := String.mk (s.data.map Char.toUpper)

/-- JavaScript String.prototype.toLowerCase (over the basic alphabet the
node uses it on). -/
def jsToLower (s : String) : String := String.mk (s.data.map Char.toLower)

/-- Fuelled splitter on a non-empty separator: emit the piece before each
occurrence, skip it, and continue; the fuel (instantied to more than the
input length) keeps the recursion structural. -/
def jsSplitAux (sep : List Char) : Nat → List Char → List Char → List (List Char)
  | 0, cur, _ => [cur.reverse]
  | _ + 1, cur, [] => [cur.reverse]
  | fuel + 1, cur, c :: rest =>
    if charsPrefix sep (c :: rest) then
      cur.reverse :: jsSplitAux sep fuel [] ((c :: rest).drop sep.length)
    else jsSplitAux sep fuel (c :: cur) rest

/-- JavaScript String.prototype.split on a non-empty separator (the node
only splits on the literal separators of the SSE framing and the header
blob, never on the empty string). -/
def jsSplitOn (s sep : String) : List String :=
  if sep = "" then [s]
  else (jsSplitAux sep.data (s.data.length + 1) [] s.data).map String.mk

/-- Journal of the enumerable own properties a value contributes to an
object spread: an object contributes its fields, every other value none
(the index keys a string would contribute are not modelled; no string is
ever spread by the node). -/
def spreadable : JVal → List (String × JVal)
  | .obj fs => fs
  | _ => []

/-! Request Assembler, SuperiorApis.node.ts execute.  The header block
(lines 923-963), query block (965-984), resource-mapped field routing
(990-1013), body resolution (1015-1029) and Content-Type inference
(1031-1052) are each one definition; theorems compose them. -/

/-- Credential header stage, execute lines 925-938: the `{token}` seed,
then the parsed credential headers merged with their `token` key deleted
first.  `credHeadersJson` is `none` when the credential supplies no (or a
falsy) `headers` string; a JSON.parse failure is the thrown error of the
item. -/
def credHeaderStage (token : String) (credHeadersJson : Option String) :
    Except String (List (String × JVal)) :=
  let h0 : List (String × JVal) := [("token", .str token)]
  match credHeadersJson with
  | none => .ok h0
  | some cs =>
    match parseJson cs with
    | none => .error "credential headers are not valid JSON"
    | some cv => .ok (h0 ++ jDelete "token" (spreadable cv))

/-- User header stage, execute lines 940-963: when `sendHeaders`, merge
the keypair rows (`none` when the collection has no `parameter` array) or
the parsed JSON text, with their `token` key deleted first. -/
def userHeaderStage (h1 : List (String × JVal)) (sendHeaders : Bool)
    (specifyHeaders : String) (headerRows : Option (List (String × JVal)))
    (headersJson : String) : Except String (List (String × JVal)) :=
  if sendHeaders then
    if specifyHeaders = "keypair" then
      match headerRows with
      | none => .ok h1
      | some rows => .ok (h1 ++ jDelete "token" rows)
    else
      match parseJson headersJson with
      | none => .error "user headers are not valid JSON"
      | some uv => .ok (h1 ++ jDelete "token" (spreadable uv))
  else
    .ok h1

/-- Header assembly, execute lines 923-963: the credential stage then the
user stage. -/
def assembleHeaders (token : String) (credHeadersJson : Option String)
    (sendHeaders : Bool) (specifyHeaders : String)
    (headerRows : Option (List (String × JVal))) (headersJson : String) :
    Except String (List (String × JVal)) :=
  match credHeaderStage token credHeadersJson with
  | .error e => .error e
  | .ok h1 => userHeaderStage h1 sendHeaders specifyHeaders headerRows headersJson

/-- Query assembly, execute lines 965-984: empty unless `sendQuery`; then
either the keypair rows reduced into an object or the parsed JSON text
(the node then only ever adds keys to it, so a non-object parse, which
JavaScript would accept here until the first write, is modelled as the
empty journal). -/
def assembleQuery (sendQuery : Bool) (specifyQuery : String)
    (queryRows : Option (List (String × JVal))) (queryJson : String) :
    Except String (List (String × JVal)) :=
  if sendQuery then
    if specifyQuery = "keypair" then
      match queryRows with
      | none => pure []
      | some rows => pure rows
    else
      match parseJson queryJson with
      | none => throw "query parameters are not valid JSON"
      | some qv => pure (spreadable qv)
  else
    pure []

/-- Routing of the resource-mapped parameter fields, execute lines
990-1013: a `query_` key is written into the query object under the rest
of its name, a `header_` key into the headers unless the rest of its name
is literally `token`, anything else is ignored.  (For a key that starts
with the pattern, the JavaScript `key.replace(pattern, "")` of the source
replaces the first occurrence, i.e. drops the pattern.)  The body is not
touched: no `body_` route exists and the `bodyFields` parameter is never
read by execute.  This is the loop body for one mapped field. -/
def mappedFieldStep (acc : List (String × JVal) × List (String × JVal))
    (kv : String × JVal) : List (String × JVal) × List (String × JVal) :=
  if jsStartsWith kv.1 "query_" then
    (jSet (jsDrop kv.1 6) kv.2 acc.1, acc.2)
  else if jsStartsWith kv.1 "header_" then
    let paramName := jsDrop kv.1 7
    if paramName ≠ "token" then (acc.1, jSet paramName kv.2 acc.2)
    else acc
  else acc

/-- The whole routing loop over the mapped fields. -/
def applyMappedFields (fields : Option (List (String × JVal)))
    (query0 headers0 : List (String × JVal)) :
    List (String × JVal) × List (String × JVal) :=
  match fields with
  | none => (query0, headers0)
  | some fs => fs.foldl mappedFieldStep (query0, headers0)

/-- Body resolution, execute lines 1015-1029: for a truthy scenario value
other than `no_scenario` and `error` (note: `no_use_scenario` does enter
this branch), a Body JSON text that is non-empty and, after trimming,
neither empty nor exactly a pair of braces is parsed as the body; a parse
failure is a fatal item error; otherwise the body stays `none`. -/
def resolveBody (scenario : String) (bodyJson : String) :
    Except String (Option JVal) :=
  if scenario ≠ "" ∧ scenario ≠ "no_scenario" ∧ scenario ≠ "error" then
    if bodyJson ≠ "" ∧ jsTrim bodyJson ≠ "" ∧ jsTrim bodyJson ≠ "{}" then
      match parseJson bodyJson with
      | some j => .ok (some j)
      | none => .error "Failed to parse body JSON"
    else .ok none
  else .ok none

/-- JavaScript String.prototype.includes. -/
def jsIncludes (s pat : String) : Bool :=
  if pat = "" then true else (jsSplitOn s pat).length ≥ 2

/-- Content-Type inference, execute lines 1031-1052: only for
POST/PUT/PATCH, only when the operation declares request-body content and
the caller has not already set a truthy `Content-Type`; the first declared
content type is normalised to one of the three known types it contains,
or passed through verbatim.  An empty declared content object would make
the source read a property of `undefined` and throw; that is the error
case.  (A truthy non-object `content`, which JavaScript would walk via its
index keys, is treated as no declared content.)  This helper extracts the
declared content object. -/
def requestContentOf (methodData : Option JVal) : Option (List (String × JVal)) :=
  match methodData.bind (fun md => md.get "requestBody") with
  | none => none
  | some rb =>
    match rb.get "content" with
    | some (.obj cts) => some cts
    | _ => none

/-- The normalisation of the first declared content type (lines
1036-1049). -/
def normalizeContentType (apiContentType : String) : String :=
  if jsIncludes apiContentType "multipart/form-data" then "multipart/form-data"
  else if jsIncludes apiContentType "application/json" then "application/json"
  else if jsIncludes apiContentType "application/x-www-form-urlencoded" then
    "application/x-www-form-urlencoded"
  else apiContentType

/-- Whether the caller already set a truthy Content-Type (line 1039). -/
def hasContentType (headers : List (String × JVal)) : Bool :=
  match jGet "Content-Type" headers with
  | some v => jsTruthy v
  | none => false

def inferContentType (method : String) (methodData : Option JVal)
    (headers : List (String × JVal)) : Except String (List (String × JVal)) :=
  if method = "POST" ∨ method = "PUT" ∨ method = "PATCH" then
    match requestContentOf methodData with
    | none => .ok headers
    | some cts =>
      match cts.head? with
      | none => .error "cannot read properties of undefined"
      | some ct0 =>
        if hasContentType headers then .ok headers
        else .ok (jSet "Content-Type" (.str (normalizeContentType ct0.1)) headers)
  else .ok headers

/-- The full header pipeline of one execute item: assembly from token,
credential and user sources, then the mapped `header_` fields, then
Content-Type inference.  Returns the final headers sent with the request. -/
def finalHeaders (token : String) (credHeadersJson : Option String)
    (sendHeaders : Bool) (specifyHeaders : String)
    (headerRows : Option (List (String × JVal))) (headersJson : String)
    (mappedFields : Option (List (String × JVal)))
    (query0 : List (String × JVal)) (method : String) (methodData : Option JVal) :
    Except String (List (String × JVal)) :=
  match assembleHeaders token credHeadersJson sendHeaders specifyHeaders headerRows headersJson with
  | .error e => .error e
  | .ok h1 =>
    inferContentType method methodData (applyMappedFields mappedFields query0 h1).2

end SuperiorApisProofs

namespace SuperiorApisProofs

/-! Schema Field Deriver, SuperiorApis.node.ts getParametersFields
(lines 719-783) and getBodyFields (lines 786-858). -/

/-- The slice of a ResourceMapperField the derivations produce. -/
structure RMField where
  id : String
  displayName : String
  required : Bool
  fieldType : String
deriving DecidableEq, Repr

/-- Mapping of an OpenAPI schema type to an n8n field type (the shared
helper of both derivations). -/
def mapSchemaTypeToFieldType (t : String) : String :=
  if t = "string" then "string"
  else if t = "number" then "number"
  else if t = "integer" then "number"
  else if t = "boolean" then "boolean"
  else if t = "array" then "array"
  else if t = "object" then "object"
  else "string"

/-- One `parameters[]` entry of an operation, as the derivation reads it:
`in`, `name`, the normalised `required` flag, the optional `schema.type`
and the optional description. -/
structure ParamSpec where
  inLoc : String
  name : String
  required : Bool
  schemaType : Option String
  description : Option String
deriving DecidableEq, Repr

/-- Insertion step of a stable comparator sort: the new element goes
before the first resident the comparator orders strictly after it, hence
after every resident it ties with. -/
def jsInsert (cmp : α → α → Int) (x : α) : List α → List α
  | [] => [x]
  | y :: ys => if cmp y x > 0 then x :: y :: ys else y :: jsInsert cmp x ys

/-- Array.prototype.sort: stable since ES2019, and for a consistent
comparator every stable sort returns the same list, so a stable insertion
sort is an exact model. -/
def jsSort (cmp : α → α → Int) (l : List α) : List α :=
  l.foldl (fun acc x => jsInsert cmp x acc) []

/-- The required-first comparator both derivations pass to sort. -/
def requiredCmp (a b : RMField) : Int :=
  if a.required ∧ ¬ b.required then -1
  else if ¬ a.required ∧ b.required then 1
  else 0

/-- Field built from one query/header parameter (getParametersFields
lines 754-766). -/
def paramField (p : ParamSpec) : RMField :=
  let inType := if p.inLoc = "query" then "[Q]" else "[H]"
  let descr := match p.description with
    | some d => " - " ++ d
    | none => ""
  { id := p.inLoc ++ "_" ++ p.name
    displayName := p.name ++ (if p.required then " *" else "") ++ " " ++ inType ++ descr
    required := p.required
    fieldType := mapSchemaTypeToFieldType (p.schemaType.getD "string") }

/-- Query/header field derivation: map each parameter to a field, then
sort required fields first (getParametersFields lines 750-776). -/
def deriveParamFields (params : List ParamSpec) : List RMField :=
  jsSort requiredCmp (params.map paramField)

/-- One `schema.properties` entry of a JSON request body, as the body
derivation reads it. -/
structure BodyProp where
  key : String
  propType : Option String
  description : Option String
deriving DecidableEq, Repr

/-- Field built from one body property (getBodyFields lines 829-841). -/
def bodyField (required : List String) (p : BodyProp) : RMField :=
  let descr := match p.description with
    | some d => " - " ++ d
    | none => ""
  { id := "body_" ++ p.key
    displayName := p.key ++ (if required.contains p.key then " *" else "") ++ descr
    required := required.contains p.key
    fieldType := mapSchemaTypeToFieldType (p.propType.getD "string") }

/-- Body field derivation: map each property to a field, then sort
required fields first (getBodyFields lines 821-851). -/
def deriveBodyFields (props : List BodyProp) (required : List String) : List RMField :=
  jsSort requiredCmp (props.map (bodyField required))

end SuperiorApisProofs

namespace SuperiorApisProofs

/-! Descriptor Cache, SuperiorApis.node.ts getPluginListCached (lines
24-50).  The workflow static data is one string-keyed store of JSON
values (responses and timestamps alike); a call reads the store, may
issue the upstream request (the `fetch` argument is the response that
request would produce), and returns the response, the updated store and
whether the upstream request was issued. -/

/-- Cache duration: five minutes in milliseconds. -/
def CACHE_DURATION : Int := 5 * 60 * 1000

/-- The cache key: a fixed tag plus the first 20 characters of the token. -/
def cacheKeyOf (token : String) : String :=
  "plugins_list_" ++ String.mk (token.data.take 20)

/-- The store update a fetching call performs: the response under the
cache key, the clock under the timestamp key (lines 47-48). -/
def cacheStoreAfter (store : String → Option JVal) (token : String) (now : Int)
    (fetch : JVal) : String → Option JVal :=
  fun k =>
    if k = cacheKeyOf token ++ "_timestamp" then some (.num now)
    else if k = cacheKeyOf token then some fetch
    else store k

/-- One call of getPluginListCached.  The cache is valid when the stored
response is truthy, the stored timestamp is truthy (a 0 timestamp fails
this, as in the source) and `now` minus the timestamp is below the cache
duration; a non-numeric stored timestamp makes the age comparison NaN,
hence false. -/
def getPluginListCached (store : String → Option JVal) (token : String)
    (now : Int) (fetch : JVal) : JVal × (String → Option JVal) × Bool :=
  let cacheKey := cacheKeyOf token
  let cacheTimeKey := cacheKey ++ "_timestamp"
  let cached := store cacheKey
  let ctime := store cacheTimeKey
  let valid : Bool :=
    (match cached with | some v => jsTruthy v | none => false) &&
    (match ctime with | some v => jsTruthy v | none => false) &&
    (match ctime with
      | some (.num t) => decide (now - t < CACHE_DURATION)
      | _ => false)
  if valid then
    (cached.getD .null, store, false)
  else
    (fetch, cacheStoreAfter store token now fetch, true)

end SuperiorApisProofs

namespace SuperiorApisProofs

/-! Descriptor Codec, SuperiorApis.node.ts getApiList lines 539-546
(encode) and the JSON.parse-of-base64 at getMethods line 570,
getScenarioList line 597 and execute line 898 (decode).  Encoding is
Buffer.from(JSON.stringify(pluginData)).toString(base64): UTF-8 bytes of
the JSON text, then base64 characters.  The decoders below are strict on
the encoder's grammar; Node's are lenient on inputs the encoder never
produces (unpadded base64, invalid UTF-8 replaced), which no claim
exercises. -/

/-- UTF-8 bytes of one character. -/
def utf8Char (c : Char) : List Nat :=
  let n := c.toNat
  if n < 128 then [n]
  else if n < 2048 then [192 + n / 64, 128 + n % 64]
  else if n < 65536 then [224 + n / 4096, 128 + n / 64 % 64, 128 + n % 64]
  else [240 + n / 262144, 128 + n / 4096 % 64, 128 + n / 64 % 64, 128 + n % 64]

/-- UTF-8 bytes of a string (Buffer.from of the string). -/
def utf8Encode (s : String) : List Nat := s.data.flatMap utf8Char

/-- UTF-8 decoding (Buffer.prototype.toString), strict: overlong forms,
surrogate code points and stray bytes are rejected rather than replaced. -/
def utf8Decode : List Nat → Option (List Char)
  | [] => some []
  | b :: rest =>
    if b < 128 then
      (utf8Decode rest).map (fun cs => Char.ofNat b :: cs)
    else if 194 ≤ b ∧ b < 224 then
      match rest with
      | [] => none
      | b2 :: rest2 =>
        if 128 ≤ b2 ∧ b2 < 192 then
          (utf8Decode rest2).map (fun cs => Char.ofNat ((b - 192) * 64 + (b2 - 128)) :: cs)
        else none
    else if 224 ≤ b ∧ b < 240 then
      match rest with
      | [] => none
      | b2 :: rest1 =>
        match rest1 with
        | [] => none
        | b3 :: rest2 =>
          if (128 ≤ b2 ∧ b2 < 192) ∧ (128 ≤ b3 ∧ b3 < 192) then
            let n := (b - 224) * 4096 + (b2 - 128) * 64 + (b3 - 128)
            if 2048 ≤ n ∧ (n < 55296 ∨ 57343 < n) then
              (utf8Decode rest2).map (fun cs => Char.ofNat n :: cs)
            else none
          else none
    else if 240 ≤ b ∧ b < 245 then
      match rest with
      | [] => none
      | b2 :: rest1 =>
        match rest1 with
        | [] => none
        | b3 :: rest15 =>
          match rest15 with
          | [] => none
          | b4 :: rest2 =>
            if (128 ≤ b2 ∧ b2 < 192) ∧ (128 ≤ b3 ∧ b3 < 192) ∧ (128 ≤ b4 ∧ b4 < 192) then
              let n := (b - 240) * 262144 + (b2 - 128) * 4096 + (b3 - 128) * 64 + (b4 - 128)
              if 65536 ≤ n ∧ n < 1114112 then
                (utf8Decode rest2).map (fun cs => Char.ofNat n :: cs)
              else none
            else none
    else none

/-- Base64 alphabet character of a six-bit value. -/
def b64Char (k : Nat) : Char :=
  if k < 26 then Char.ofNat (65 + k)
  else if k < 52 then Char.ofNat (97 + (k - 26))
  else if k < 62 then Char.ofNat (48 + (k - 52))
  else if k = 62 then '+'
  else '/'

/-- Six-bit value of a base64 alphabet character. -/
def b64Val (c : Char) : Option Nat :=
  if 65 ≤ c.toNat ∧ c.toNat ≤ 90 then some (c.toNat - 65)
  else if 97 ≤ c.toNat ∧ c.toNat ≤ 122 then some (c.toNat - 97 + 26)
  else if 48 ≤ c.toNat ∧ c.toNat ≤ 57 then some (c.toNat - 48 + 52)
  else if c = '+' then some 62
  else if c = '/' then some 63
  else none

/-- Base64 characters of a byte list, with padding. -/
def b64Encode : List Nat → List Char
  | [] => []
  | [a] => [b64Char (a / 4), b64Char (a % 4 * 16), '=', '=']
  | [a, b] => [b64Char (a / 4), b64Char (a % 4 * 16 + b / 16), b64Char (b % 16 * 4), '=']
  | a :: b :: c :: rest =>
    b64Char (a / 4) :: b64Char (a % 4 * 16 + b / 16) :: b64Char (b % 16 * 4 + c / 64) ::
      b64Char (c % 64) :: b64Encode rest

/-- Base64 decoding, strict on the padded grammar the encoder emits:
four-character quanta, with one or two `=` pads only in the final
quantum. -/
def b64Decode : List Char → Option (List Nat)
  | [] => some []
  | c1 :: c2 :: c3 :: c4 :: rest =>
    match b64Val c1, b64Val c2 with
    | some v1, some v2 =>
      if c3 = '=' then
        if c4 = '=' ∧ rest = [] then
          if v2 % 16 = 0 then some [v1 * 4 + v2 / 16] else none
        else none
      else
        match b64Val c3 with
        | some v3 =>
          if c4 = '=' then
            if rest = [] then
              if v3 % 4 = 0 then some [v1 * 4 + v2 / 16, v2 % 16 * 16 + v3 / 4] else none
            else none
          else
            match b64Val c4 with
            | some v4 =>
              match b64Decode rest with
              | some bs =>
                some ((v1 * 4 + v2 / 16) :: (v2 % 16 * 16 + v3 / 4) ::
                  (v3 % 4 * 64 + v4) :: bs)
              | none => none
            | none => none
        | none => none
    | _, _ => none
  | _ => none

/-- The descriptor selection value built by getApiList lines 539-545:
`id`, `version` and `name` are whatever the catalog response carried,
`interfaceId` is the string extracted from the documentation URL,
`interface` is the raw OpenAPI-style fragment. -/
structure PluginData where
  id : JVal
  interfaceId : String
  version : JVal
  name : JVal
  interface : JVal

/-- The JSON object JSON.stringify serializes for a descriptor (insertion
order of getApiList line 539). -/
def pluginDataJson (d : PluginData) : JVal :=
  .obj [("id", d.id), ("interfaceId", .str d.interfaceId), ("version", d.version),
        ("name", d.name), ("interface", d.interface)]

/-- Descriptor encoding: base64 of the UTF-8 bytes of the JSON text. -/
def encodePluginData (d : PluginData) : String :=
  String.mk (b64Encode (utf8Encode (stringify (pluginDataJson d))))

/-- Descriptor decoding to the raw JSON value, as every consumer performs
it: JSON.parse of the UTF-8 reading of the base64 bytes. -/
def decodePluginJson (s : String) : Option JVal :=
  match b64Decode s.data with
  | none => none
  | some bytes =>
    match utf8Decode bytes with
    | none => none
    | some cs => parseChars cs

/-- The field reads the consumers perform on a decoded descriptor,
bundled back into a `PluginData`. -/
def pluginDataOfJson (j : JVal) : Option PluginData :=
  match j with
  | .obj fs =>
    match jGet "interfaceId" fs with
    | some (.str iid) =>
      some ⟨(jGet "id" fs).getD .null, iid, (jGet "version" fs).getD .null,
            (jGet "name" fs).getD .null, (jGet "interface" fs).getD .null⟩
    | _ => none
  | _ => none

/-- Descriptor decoding to a `PluginData`. -/
def decodePluginData (s : String) : Option PluginData :=
  match decodePluginJson s with
  | some j => pluginDataOfJson j
  | none => none

end SuperiorApisProofs

namespace SuperiorApisProofs

/-! JSON.stringify with an indent argument, used for the pretty-printed
scenario bodies (getScenarioList line 676:  JSON.stringify(content,
null, 4)). -/

/-- Indentation of a nesting level under a 4-space gap. -/
def gapChars (level : Nat) : List Char := List.replicate (4 * level) ' '

mutual

/-- Pretty rendering of a value whose children sit at `level + 1`. -/
def jPretty : Nat → JVal → List Char
  | _, .null => ['n', 'u', 'l', 'l']
  | _, .bool true => ['t', 'r', 'u', 'e']
  | _, .bool false => ['f', 'a', 'l', 's', 'e']
  | _, .num i => intChars i
  | _, .str s => strChars s
  | _, .arr [] => ['[', ']']
  | level, .arr (e :: es) =>
    '[' :: '\n' :: (jPrettyItems level (e :: es) ++ '\n' :: (gapChars level ++ [']']))
  | _, .obj [] => ['{', '}']
  | level, .obj (f :: fs) =>
    '{' :: '\n' :: (jPrettyFields level (f :: fs) ++ '\n' :: (gapChars level ++ ['}']))

/-- Pretty renderings of array elements, newline separated. -/
def jPrettyItems : Nat → List JVal → List Char
  | _, [] => []
  | level, [e] => gapChars (level + 1) ++ jPretty (level + 1) e
  | level, e :: es =>
    gapChars (level + 1) ++ jPretty (level + 1) e ++ ',' :: '\n' :: jPrettyItems level es

/-- Pretty renderings of object members, newline separated. -/
def jPrettyFields : Nat → List (String × JVal) → List Char
  | _, [] => []
  | level, [(k, v)] =>
    gapChars (level + 1) ++ strChars k ++ ':' :: ' ' :: jPretty (level + 1) v
  | level, (k, v) :: fs =>
    gapChars (level + 1) ++ strChars k ++ ':' :: ' ' :: jPretty (level + 1) v ++
      ',' :: '\n' :: jPrettyFields level fs

end

/-- JSON.stringify of a value with a 4-space indent. -/
def stringifyPretty (j : JVal) : String := String.mk (jPretty 0 j)

end SuperiorApisProofs

namespace SuperiorApisProofs

/-! Scenario Loader, SuperiorApis.node.ts getScenarioList (lines
587-715).  The two network calls are oracles: `listCall` is the
scenario-list response (`none` models a thrown request), `details` maps a
scenario id to its detail response (`none` models a thrown request). -/

/-- Extraction of the first declared path and its method map from a
decoded descriptor (the `pluginData.interface.paths` walk shared by
getMethods, getScenarioList and execute).  Every shape on which the
JavaScript walk would throw (no `interface`, no `paths`, a non-object
`paths`, an empty `paths` whose undefined first entry is then
subscripted) is the error case. -/
def firstPathOf (pluginData : JVal) : Except Unit (String × JVal) :=
  match pluginData.get "interface" with
  | none => throw ()
  | some itf =>
    match itf.get "paths" with
    | some (.obj pathFields) =>
      match pathFields.head? with
      | some pf => pure pf
      | none => throw ()
    | _ => throw ()

/-- Whether the default-body walk of getScenarioList lines 608-636 throws:
it enters on a truthy `methodData.requestBody` and then subscripts
`requestBody.content`, which throws when `content` is missing or null. -/
def defaultBodyWalkThrows (methodData : Option JVal) : Bool :=
  match methodData with
  | none => false
  | some md =>
    if jsTruthy md then
      match md.get "requestBody" with
      | none => false
      | some rb =>
        if jsTruthy rb then
          match rb.get "content" with
          | none => true
          | some .null => true
          | some _ => false
        else false
    else false

/-- The unconditional first option. -/
def useDefaultOption : JVal × JVal :=
  (.str "Use Default Request Body", .str "no_use_scenario")

/-- The options returned when the try block throws. -/
def scenarioErrorOptions : List (JVal × JVal) :=
  [useDefaultOption,
   (.str "Failed to load scenario list. Please check network connection.", .str "error")]

/-- The options returned on a successful call without scenario data. -/
def noScenarioOptions (method : String) : List (JVal × JVal) :=
  [useDefaultOption,
   (.str ("No scenario templates available for " ++ jsToUpper method ++ " method"),
    .str "no_scenario")]

/-- One scenario's option: the detail response's pretty-printed
`request_content` on a successful detail call, the scenario's raw id
otherwise (lines 657-687). -/
def scenarioOption (details : JVal → Option JVal) (s : JVal) : JVal × JVal :=
  let name := (s.get "scenario_name").getD .null
  let fallback := (name, (s.get "scenario_id").getD .null)
  match details ((s.get "scenario_id").getD .null) with
  | none => fallback
  | some dresp =>
    match dresp.get "status" with
    | some (.num 1) =>
      match (dresp.get "data").bind (fun d => d.get "request_content") with
      | some content =>
        if jsTruthy content then (name, .str (stringifyPretty content)) else fallback
      | none => fallback
    | _ => fallback

/-- The scenario list of a successful response: `status === 1` and a
non-empty `data.list` array. -/
def scenarioListOf (resp : JVal) : Option (List JVal) :=
  match resp.get "status" with
  | some (.num 1) =>
    match (resp.get "data").bind (fun d => d.get "list") with
    | some (.arr es) => if es.length > 0 then some es else none
    | _ => none
  | _ => none

/-- getScenarioList.  Outcomes: the empty list before any work when the
selection or method parameter is empty; the error options when the decode,
the default-body walk or the list call throws; the no-scenario options on
a successful call without data; otherwise the sentinel option followed by
one option per scenario. -/
def getScenarioList (apiSelection method : String) (listCall : Option JVal)
    (details : JVal → Option JVal) : List (JVal × JVal) :=
  if apiSelection = "" ∨ method = "" then []
  else
    match decodePluginJson apiSelection with
    | none => scenarioErrorOptions
    | some pd =>
      match firstPathOf pd with
      | .error _ => scenarioErrorOptions
      | .ok (_, pathMethods) =>
        let methodData := pathMethods.get (jsToLower method)
        if defaultBodyWalkThrows methodData then scenarioErrorOptions
        else
          match listCall with
          | none => scenarioErrorOptions
          | some resp =>
            match scenarioListOf resp with
            | some es => useDefaultOption :: es.map (scenarioOption details)
            | none => noScenarioOptions method

end SuperiorApisProofs

namespace SuperiorApisProofs

/-! MCP Transport Client, SuperiorApisMcp.node.ts.  The SSE stream
(handleSSERequest, lines 396-523) is modelled as a run over the stream's
events in arrival order; the wall-clock timer set at response start fires
at `timeout`, before any event carrying a time at or past it. -/

/-- One event of the SSE response stream: a data chunk, the natural end of
the stream, or a response error, each carrying its arrival time in
milliseconds after response start. -/
inductive SSEEvent where
  | chunk (time : Nat) (data : String)
  | streamEnd (time : Nat)
  | streamError (time : Nat) (msg : String)
deriving DecidableEq, Repr

/-- How a run resolved: a terminal marker (a DONE payload or a JSON-RPC
result/error payload), the natural stream end, the timer, or a response
error (which rejects). -/
inductive SSEKind where
  | terminal
  | ended
  | timedOut
  | errored (msg : String)
deriving DecidableEq, Repr

/-- The resolved value, the time of resolution and how it resolved. -/
structure SSEOutcome where
  data : List JVal
  time : Nat
  kind : SSEKind

/-- Whether a parsed data payload is the terminal JSON-RPC response: an
object carrying a `result` or `error` key (line 464; on any other value
the property read yields undefined, or throws on null after the push,
which the enclosing try swallows — not terminal either way). -/
def dataTerminal : JVal → Bool
  | .obj fs => (jGet "result" fs).isSome || (jGet "error" fs).isSome
  | _ => false

/-- Processing of one `data:` payload (lines 445-475): a DONE marker
resolves with the data so far; a parseable payload is appended and
resolves if terminal; unparseable JSON is skipped. -/
def processDataContent (acc : List JVal) (content : String) : List JVal × Bool :=
  if content = "[DONE]" then (acc, true)
  else
    match parseJson content with
    | some j => (acc ++ [j], dataTerminal j)
    | none => (acc, false)

/-- Scan of one event's lines for `data: ` payloads, stopping at the first
that resolves (the source returns out of the whole data handler). -/
def processEventLines (acc : List JVal) : List String → List JVal × Bool
  | [] => (acc, false)
  | line :: rest =>
    if jsStartsWith line "data: " then
      let p := processDataContent acc (jsTrim (jsDrop line 6))
      if p.2 then p else processEventLines p.1 rest
    else processEventLines acc rest

/-- Scan of the complete events of a chunk, skipping whitespace-only
events, stopping at the first resolution. -/
def processEvents (acc : List JVal) : List String → List JVal × Bool
  | [] => (acc, false)
  | ev :: rest =>
    if jsTrim ev = "" then processEvents acc rest
    else
      let p := processEventLines acc (jsSplitOn ev "\n")
      if p.2 then p else processEvents p.1 rest

/-- One data chunk (lines 431-479): append to the buffer, split on blank
lines, retain the trailing partial event, process the complete events.
Returns the new buffer, the new accumulated data and whether the run
resolved. -/
def processChunk (buffer : String) (acc : List JVal) (chunk : String) :
    String × List JVal × Bool :=
  let parts := jsSplitOn (buffer ++ chunk) "\n\n"
  let newBuffer := (parts.getLast?).getD ""
  let p := processEvents acc parts.dropLast
  (newBuffer, p.1, p.2)

/-- The end flush (lines 481-502): parse and append the `data:` payloads
of a non-blank trailing buffer; no marker or terminal checks here. -/
def flushBuffer (acc : List JVal) (buffer : String) : List JVal :=
  if jsTrim buffer = "" then acc
  else
    (jsSplitOn buffer "\n").foldl
      (fun a line =>
        if jsStartsWith line "data: " then
          match parseJson (jsTrim (jsDrop line 6)) with
          | some j => a ++ [j]
          | none => a
        else a)
      acc

/-- What the timer resolves with (line 427). -/
def timeoutData (acc : List JVal) : List JVal :=
  if acc.length > 0 then acc
  else [.obj [("error", .str "SSE timeout - no data received")]]

/-- The run over the stream's events.  An exhausted event list means the
stream delivers nothing further, so the timer fires at `timeout`; an event
at or past `timeout` is preceded by the timer for the same reason. -/
def runSSEAux (timeout : Nat) (buffer : String) (acc : List JVal) :
    List SSEEvent → SSEOutcome
  | [] => ⟨timeoutData acc, timeout, .timedOut⟩
  | ev :: rest =>
    match ev with
    | .chunk t s =>
      if timeout ≤ t then ⟨timeoutData acc, timeout, .timedOut⟩
      else
        let st := processChunk buffer acc s
        if st.2.2 then ⟨st.2.1, t, .terminal⟩
        else runSSEAux timeout st.1 st.2.1 rest
    | .streamEnd t =>
      if timeout ≤ t then ⟨timeoutData acc, timeout, .timedOut⟩
      else ⟨flushBuffer acc buffer, t, .ended⟩
    | .streamError t msg =>
      if timeout ≤ t then ⟨timeoutData acc, timeout, .timedOut⟩
      else ⟨acc, t, .errored ("SSE response error: " ++ msg)⟩

/-- handleSSERequest as a function of the stream it is shown. -/
def runSSE (timeout : Nat) (events : List SSEEvent) : SSEOutcome :=
  runSSEAux timeout "" [] events

end SuperiorApisProofs

namespace SuperiorApisProofs

/-! The MCP node's execute (SuperiorApisMcp.node.ts lines 230-382). -/

/-- The per-item parameters of the MCP node. -/
structure McpItem where
  connectionType : String
  operation : String
  toolName : String
  resourceUri : String
  promptName : String
  parameters : String
deriving DecidableEq, Repr

/-- The per-item environment execute cannot compute itself: the clock, the
SSE credential timeout and stream, and the HTTP response (`none` models a
thrown request). -/
structure McpItemEnv where
  now : Int
  sseTimeout : Nat
  sseEvents : List SSEEvent
  httpResp : Option JVal

/-- The params member of the JSON-RPC envelope (lines 251-272): built for
the three parameterised operations, absent otherwise; the parameters JSON
text is parsed for tools/call and prompts/get and a parse failure throws. -/
def buildMcpParams (it : McpItem) : Except String (Option JVal) :=
  if it.operation = "tools/call" then
    match parseJson it.parameters with
    | none => throw "Unexpected token in JSON"
    | some p => pure (some (.obj [("name", .str it.toolName), ("arguments", p)]))
  else if it.operation = "resources/read" then
    pure (some (.obj [("uri", .str it.resourceUri)]))
  else if it.operation = "prompts/get" then
    match parseJson it.parameters with
    | none => throw "Unexpected token in JSON"
    | some p => pure (some (.obj [("name", .str it.promptName), ("arguments", p)]))
  else
    pure none

/-- The JSON-RPC envelope of one item (lines 244-272). -/
def buildMcpRequest (it : McpItem) (now : Int) : Except String JVal :=
  let base : List (String × JVal) :=
    [("jsonrpc", .str "2.0"), ("method", .str it.operation), ("id", .num now)]
  match buildMcpParams it with
  | .error e => .error e
  | .ok (some p) => .ok (.obj (jSet "params" p base))
  | .ok none => .ok (.obj base)

/-- The records one item appends to the output (lines 237-361): the SSE
branch shapes the accumulated data (a single message directly, several
under messages/messageCount) and an SSE rejection throws; the HTTP branch
returns the raw response; any other connection type appends nothing. -/
def mcpExecuteItem (it : McpItem) (env : McpItemEnv) : Except String (List JVal) :=
  match buildMcpRequest it env.now with
  | .error e => .error e
  | .ok _ =>
  if it.connectionType = "sse" then
    let outcome := runSSE env.sseTimeout env.sseEvents
    match outcome.kind with
    | .errored msg => throw msg
    | _ =>
      match outcome.data with
      | [single] => pure [single]
      | ms =>
        pure [.obj [("messages", .arr ms), ("messageCount", .num (ms.length : Int))]]
  else if it.connectionType = "http" then
    match env.httpResp with
    | none => throw "HTTP request failed"
    | some r => pure [r]
  else
    pure []

/-- The batch loop with its error policy (lines 362-377): under continue
on fail a thrown item appends an error record; otherwise the first thrown
item aborts the batch. -/
def mcpExecute (continueOnFail : Bool) : List (McpItem × McpItemEnv) → Except String (List JVal)
  | [] => pure []
  | (it, env) :: rest =>
    match mcpExecuteItem it env with
    | .ok recs => (mcpExecute continueOnFail rest).map (fun rs => recs ++ rs)
    | .error msg =>
      if continueOnFail then
        (mcpExecute continueOnFail rest).map
          (fun rs => .obj [("error", .str msg)] :: rs)
      else .error msg

end SuperiorApisProofs

namespace SuperiorApisProofs

/-! Journal lemmas. -/

theorem jGet_append_of_some {k : String} {b : List (String × JVal)} {v : JVal}
    (h : jGet k b = some v) (a : List (String × JVal)) : jGet k (a ++ b) = some v := by
  induction a with
  | nil => simpa using h
  | cons kv a ih =>
    obtain ⟨k2, w⟩ := kv
    show (match jGet k (a ++ b) with
      | some v2 => some v2
      | none => if k2 = k then some w else none) = some v
    rw [ih]

theorem jGet_append_of_none {k : String} {b : List (String × JVal)}
    (h : jGet k b = none) (a : List (String × JVal)) : jGet k (a ++ b) = jGet k a := by
  induction a with
  | nil => simpa using h
  | cons kv a ih =>
    obtain ⟨k2, w⟩ := kv
    show (match jGet k (a ++ b) with
      | some v2 => some v2
      | none => if k2 = k then some w else none) =
      (match jGet k a with
      | some v2 => some v2
      | none => if k2 = k then some w else none)
    rw [ih]

theorem jGet_jDelete_self (k : String) (o : List (String × JVal)) :
    jGet k (jDelete k o) = none := by
  induction o with
  | nil => rfl
  | cons kv o ih =>
    obtain ⟨k2, w⟩ := kv
    by_cases hk : k2 = k
    · simpa [jDelete, List.filter_cons, hk] using ih
    · have hfilter : jDelete k ((k2, w) :: o) = (k2, w) :: jDelete k o := by
        simp [jDelete, List.filter_cons, hk]
      rw [hfilter]
      show (match jGet k (jDelete k o) with
        | some v2 => some v2
        | none => if k2 = k then some w else none) = none
      rw [ih, if_neg hk]

theorem jGet_jSet_ne {k k2 : String} (h : k ≠ k2) (v : JVal) (o : List (String × JVal)) :
    jGet k2 (jSet k v o) = jGet k2 o := by
  refine jGet_append_of_none ?_ o
  simp [jGet, h]

theorem jGet_jSet_self (k : String) (v : JVal) (o : List (String × JVal)) :
    jGet k (jSet k v o) = some v := by
  refine jGet_append_of_some ?_ o
  simp [jGet]

/-! Token protection through the header pipeline. -/

theorem credHeaderStage_token {token : String} {cred : Option String}
    {h1 : List (String × JVal)} (h : credHeaderStage token cred = .ok h1) :
    jGet "token" h1 = some (.str token) := by
  cases cred with
  | none =>
    simp only [credHeaderStage] at h
    cases h; rfl
  | some cs =>
    simp only [credHeaderStage] at h
    cases hp : parseJson cs with
    | none => rw [hp] at h; cases h
    | some cv =>
      rw [hp] at h
      cases h
      rw [jGet_append_of_none (jGet_jDelete_self _ _)]
      rfl

theorem userHeaderStage_token {h1 h2 : List (String × JVal)} {sh : Bool} {spec : String}
    {rows : Option (List (String × JVal))} {hjson : String} {v : JVal}
    (ht : jGet "token" h1 = some v)
    (h : userHeaderStage h1 sh spec rows hjson = .ok h2) :
    jGet "token" h2 = some v := by
  unfold userHeaderStage at h
  cases sh with
  | false => cases h; exact ht
  | true =>
    simp only [if_true] at h
    by_cases hs : spec = "keypair"
    · rw [if_pos hs] at h
      cases rows with
      | none => cases h; exact ht
      | some rows =>
        cases h
        rw [jGet_append_of_none (jGet_jDelete_self _ _)]
        exact ht
    · rw [if_neg hs] at h
      cases hp : parseJson hjson with
      | none => rw [hp] at h; cases h
      | some uv =>
        rw [hp] at h
        cases h
        rw [jGet_append_of_none (jGet_jDelete_self _ _)]
        exact ht

theorem assembleHeaders_token {token : String} {cred : Option String} {sh : Bool}
    {spec : String} {rows : Option (List (String × JVal))} {hjson : String}
    {h : List (String × JVal)}
    (hok : assembleHeaders token cred sh spec rows hjson = .ok h) :
    jGet "token" h = some (.str token) := by
  unfold assembleHeaders at hok
  cases hc : credHeaderStage token cred with
  | error e => rw [hc] at hok; cases hok
  | ok h1 =>
    rw [hc] at hok
    exact userHeaderStage_token (credHeaderStage_token hc) hok

theorem mappedFieldStep_token (p : List (String × JVal) × List (String × JVal))
    (kv : String × JVal) :
    jGet "token" (mappedFieldStep p kv).2 = jGet "token" p.2 := by
  by_cases hq : jsStartsWith kv.1 "query_"
  · simp [mappedFieldStep, hq]
  · by_cases hh : jsStartsWith kv.1 "header_"
    · by_cases hp : jsDrop kv.1 7 = "token"
      · simp [mappedFieldStep, hq, hh, hp]
      · simp [mappedFieldStep, hq, hh, hp, jGet_jSet_ne hp]
    · simp [mappedFieldStep, hq, hh]

theorem mappedFold_token (fs : List (String × JVal)) :
    ∀ p : List (String × JVal) × List (String × JVal),
      jGet "token" (fs.foldl mappedFieldStep p).2 = jGet "token" p.2 := by
  induction fs with
  | nil => intro p; rfl
  | cons kv fs ih =>
    intro p
    rw [List.foldl_cons, ih (mappedFieldStep p kv), mappedFieldStep_token]

theorem applyMappedFields_token (fields : Option (List (String × JVal)))
    (q0 h0 : List (String × JVal)) :
    jGet "token" (applyMappedFields fields q0 h0).2 = jGet "token" h0 := by
  cases fields with
  | none => rfl
  | some fs => exact mappedFold_token fs (q0, h0)

theorem inferContentType_token {method : String} {md : Option JVal}
    {hs h2 : List (String × JVal)} (h : inferContentType method md hs = .ok h2) :
    jGet "token" h2 = jGet "token" hs := by
  unfold inferContentType at h
  by_cases hm : method = "POST" ∨ method = "PUT" ∨ method = "PATCH"
  · rw [if_pos hm] at h
    split at h
    · cases h; rfl
    · split at h
      · cases h
      · by_cases hct : hasContentType hs
        · rw [if_pos hct] at h; cases h; rfl
        · rw [if_neg hct] at h
          cases h
          exact jGet_jSet_ne (by decide) _ _
  · rw [if_neg hm] at h; cases h; rfl

/-- C3: for every combination of credential-supplied headers, user
headers (key-value or JSON) and resource-mapped `header_` fields —
including ones containing a `token` key — the final assembled headers'
`token` entry equals the originally supplied platform token. -/
theorem c3_header_merge_token_protective
    (token : String) (cred : Option String) (sh : Bool) (spec : String)
    (rows : Option (List (String × JVal))) (hjson : String)
    (mapped : Option (List (String × JVal))) (q0 : List (String × JVal))
    (method : String) (md : Option JVal) (h : List (String × JVal))
    (hok : finalHeaders token cred sh spec rows hjson mapped q0 method md = .ok h) :
    jGet "token" h = some (.str token) := by
  unfold finalHeaders at hok
  cases ha : assembleHeaders token cred sh spec rows hjson with
  | error e => rw [ha] at hok; cases hok
  | ok h1 =>
    rw [ha] at hok
    rw [inferContentType_token hok, applyMappedFields_token]
    exact assembleHeaders_token ha

/-- Witness for C3 at a concrete input exercising every source: a
credential `token`, a user JSON `token`, a mapped `header_token` and a
mapped ordinary header, with Content-Type inference active. -/
theorem c3_header_merge_token_protective_witness :
    jGet "token"
      [("token", JVal.str "t"), ("a", JVal.bool true), ("b", JVal.num 0),
       ("C", JVal.num 7), ("Content-Type", JVal.str "application/json")]
      = some (JVal.str "t") :=
  c3_header_merge_token_protective "t" (some "\x7b\"token\":\"evil\",\"a\":true\x7d") true "json"
    none "\x7b\"token\":\"also\",\"b\":0\x7d"
    (some [("header_token", JVal.str "x"), ("header_C", JVal.num 7)]) [] "POST"
    (some (.obj [("requestBody",
      .obj [("content", .obj [("application/json", .obj [])])])]))
    _ rfl

/-- C8: the token strip of the header merge is exact-match and
case-sensitive.  A key other than the lowercase `token` — in particular a
casing variant such as `Token` — is merged into the final headers
unchanged from every source the merge draws on: the credential header
map (whose lowercase `token` key is deleted at line 936 while the variant
survives), the user header map in both its JSON form (the delete at line
960) and its keypair form (the delete at line 949), and a resource-mapped
`header_` field (the `paramName !== 'token'` guard at line 1007).  The
final headers then carry the protected lowercase `token` entry alongside
every variant entry. -/
theorem c8_token_strip_exact_case_sensitive (token k : String)
    (v1 v2 v3 vk ev1 ev2 : JVal) (credJson userJson : String)
    (hk : k ≠ "token")
    (hc : parseJson credJson = some (.obj [("token", ev1), (k, v1)]))
    (hu : parseJson userJson = some (.obj [("token", ev2), (k, v2)])) :
    finalHeaders token (some credJson) true "json" none userJson
        (some [("header_" ++ k, v3)]) [] "GET" none
      = .ok [("token", .str token), (k, v1), (k, v2), (k, v3)]
    ∧ finalHeaders token (some credJson) true "keypair"
        (some [("token", ev2), (k, vk)]) ""
        (some [("header_" ++ k, v3)]) [] "GET" none
      = .ok [("token", .str token), (k, v1), (k, vk), (k, v3)]
    ∧ jGet "token" [("token", .str token), (k, v1), (k, v2), (k, v3)]
      = some (.str token)
    ∧ jGet k [("token", .str token), (k, v1), (k, v2), (k, v3)] = some v3 := by
  have hdelc : jDelete "token" [("token", ev1), (k, v1)] = [(k, v1)] := by
    simp [jDelete, hk]
  have hdelu : jDelete "token" [("token", ev2), (k, v2)] = [(k, v2)] := by
    simp [jDelete, hk]
  have hdelk : jDelete "token" [("token", ev2), (k, vk)] = [(k, vk)] := by
    simp [jDelete, hk]
  have hq : jsStartsWith ("header_" ++ k) "query_" = false := rfl
  have hh : jsStartsWith ("header_" ++ k) "header_" = true := rfl
  have hd : jsDrop ("header_" ++ k) 7 = k := rfl
  have hcred : credHeaderStage token (some credJson)
      = .ok [("token", JVal.str token), (k, v1)] := by
    unfold credHeaderStage
    dsimp only
    rw [hc]
    dsimp only [spreadable]
    rw [hdelc]
    rfl
  have huser : userHeaderStage [("token", JVal.str token), (k, v1)] true "json"
        none userJson
      = .ok [("token", JVal.str token), (k, v1), (k, v2)] := by
    show (match parseJson userJson with
      | none => Except.error "user headers are not valid JSON"
      | some uv => Except.ok ([("token", JVal.str token), (k, v1)]
          ++ jDelete "token" (spreadable uv)))
      = Except.ok [("token", JVal.str token), (k, v1), (k, v2)]
    rw [hu]
    dsimp only [spreadable]
    rw [hdelu]
    rfl
  have huserk : userHeaderStage [("token", JVal.str token), (k, v1)] true "keypair"
        (some [("token", ev2), (k, vk)]) ""
      = .ok [("token", JVal.str token), (k, v1), (k, vk)] := by
    show Except.ok ([("token", JVal.str token), (k, v1)]
        ++ jDelete "token" [("token", ev2), (k, vk)])
      = Except.ok [("token", JVal.str token), (k, v1), (k, vk)]
    rw [hdelk]
    rfl
  have hassem1 : assembleHeaders token (some credJson) true "json" none userJson
      = .ok [("token", JVal.str token), (k, v1), (k, v2)] := by
    unfold assembleHeaders
    rw [hcred]
    dsimp only
    exact huser
  have hassem2 : assembleHeaders token (some credJson) true "keypair"
        (some [("token", ev2), (k, vk)]) ""
      = .ok [("token", JVal.str token), (k, v1), (k, vk)] := by
    unfold assembleHeaders
    rw [hcred]
    dsimp only
    exact huserk
  have happ1 : applyMappedFields (some [("header_" ++ k, v3)]) []
        [("token", JVal.str token), (k, v1), (k, v2)]
      = ([], [("token", JVal.str token), (k, v1), (k, v2), (k, v3)]) := by
    show mappedFieldStep ([], [("token", JVal.str token), (k, v1), (k, v2)])
        ("header_" ++ k, v3)
      = ([], [("token", JVal.str token), (k, v1), (k, v2), (k, v3)])
    unfold mappedFieldStep
    simp [hq, hh, hd, hk, jSet]
  have happ2 : applyMappedFields (some [("header_" ++ k, v3)]) []
        [("token", JVal.str token), (k, v1), (k, vk)]
      = ([], [("token", JVal.str token), (k, v1), (k, vk), (k, v3)]) := by
    show mappedFieldStep ([], [("token", JVal.str token), (k, v1), (k, vk)])
        ("header_" ++ k, v3)
      = ([], [("token", JVal.str token), (k, v1), (k, vk), (k, v3)])
    unfold mappedFieldStep
    simp [hq, hh, hd, hk, jSet]
  refine ⟨?_, ?_, by simp [jGet, hk], by simp [jGet, hk]⟩
  · unfold finalHeaders
    rw [hassem1]
    show inferContentType "GET" none
        (applyMappedFields (some [("header_" ++ k, v3)]) []
          [("token", JVal.str token), (k, v1), (k, v2)]).2
      = .ok [("token", JVal.str token), (k, v1), (k, v2), (k, v3)]
    rw [happ1]
    rfl
  · unfold finalHeaders
    rw [hassem2]
    show inferContentType "GET" none
        (applyMappedFields (some [("header_" ++ k, v3)]) []
          [("token", JVal.str token), (k, v1), (k, vk)]).2
      = .ok [("token", JVal.str token), (k, v1), (k, vk), (k, v3)]
    rw [happ2]
    rfl

/-- Witness for C8 at the casing variant `Token`, supplied simultaneously
by the credential header JSON, the user header JSON (and, in the second
run, the user keypair rows) and a mapped `header_Token` field, each next
to a lowercase impostor `token` entry that the merge strips. -/
theorem c8_token_strip_exact_case_sensitive_witness :
    finalHeaders "t" (some "\x7b\"token\":\"evil1\",\"Token\":\"c1\"\x7d") true "json"
        none "\x7b\"token\":\"evil2\",\"Token\":\"u2\"\x7d"
        (some [("header_Token", JVal.str "m3")]) [] "GET" none
      = .ok [("token", JVal.str "t"), ("Token", JVal.str "c1"),
             ("Token", JVal.str "u2"), ("Token", JVal.str "m3")]
    ∧ finalHeaders "t" (some "\x7b\"token\":\"evil1\",\"Token\":\"c1\"\x7d") true "keypair"
        (some [("token", JVal.str "evil2"), ("Token", JVal.str "p2")]) ""
        (some [("header_Token", JVal.str "m3")]) [] "GET" none
      = .ok [("token", JVal.str "t"), ("Token", JVal.str "c1"),
             ("Token", JVal.str "p2"), ("Token", JVal.str "m3")]
    ∧ jGet "token" [("token", JVal.str "t"), ("Token", JVal.str "c1"),
        ("Token", JVal.str "u2"), ("Token", JVal.str "m3")] = some (JVal.str "t")
    ∧ jGet "Token" [("token", JVal.str "t"), ("Token", JVal.str "c1"),
        ("Token", JVal.str "u2"), ("Token", JVal.str "m3")] = some (JVal.str "m3") :=
  c8_token_strip_exact_case_sensitive "t" "Token" (JVal.str "c1") (JVal.str "u2")
    (JVal.str "m3") (JVal.str "p2") (JVal.str "evil1") (JVal.str "evil2")
    "\x7b\"token\":\"evil1\",\"Token\":\"c1\"\x7d" "\x7b\"token\":\"evil2\",\"Token\":\"u2\"\x7d"
    (by decide) rfl rfl

/-- C1 (evidence of the code bug): with the scenario value
`no_use_scenario` selected, the body-resolution branch of execute parses
the Body JSON text into the request body — the guard at line 1016 excludes
only the empty value, `no_scenario` and `error` — while the mapped
`body_` fields are routed nowhere (`mappedFieldStep` writes only query
and header positions and execute never reads the `bodyFields`
parameter). -/
theorem c1_no_use_scenario_body_comes_from_bodyJson :
    resolveBody "no_use_scenario" "\x7b\"a\": 1\x7d" = .ok (some (.obj [("a", .num 1)])) := rfl

/-- C9: for a non-empty, non-sentinel scenario value, a Body JSON text
that trims to nothing or to a bare brace pair leaves the request body
undefined and raises no parse error. -/
theorem c9_blank_body_json_sends_no_body (scenario bodyJson : String)
    (hs1 : scenario ≠ "") (_hs2 : scenario ≠ "no_use_scenario")
    (hs3 : scenario ≠ "no_scenario") (hs4 : scenario ≠ "error")
    (hb : jsTrim bodyJson = "" ∨ jsTrim bodyJson = "{}") :
    resolveBody scenario bodyJson = .ok none := by
  unfold resolveBody
  rw [if_pos ⟨hs1, hs3, hs4⟩, if_neg]
  rcases hb with hb | hb <;> simp [hb]

/-- Witness for C9: a real scenario selection with a whitespace-and-braces
Body JSON. -/
theorem c9_blank_body_json_sends_no_body_witness :
    resolveBody "scn" "  {} " = .ok none :=
  c9_blank_body_json_sends_no_body "scn" "  {} " (by decide) (by decide) (by decide)
    (by decide) (Or.inr rfl)

/-! Stable sort of the field derivations (C7). -/

theorem jsInsert_required {x : RMField} (hx : x.required = true) :
    ∀ (R N : List RMField), (∀ y ∈ R, y.required = true) → (∀ y ∈ N, y.required = false) →
      jsInsert requiredCmp x (R ++ N) = R ++ x :: N := by
  intro R
  induction R with
  | nil =>
    intro N hR hN
    cases N with
    | nil => rfl
    | cons n N2 =>
      have hn : n.required = false := hN n (by simp)
      simp [jsInsert, requiredCmp, hn, hx]
  | cons r R2 ih =>
    intro N hR hN
    have hr : r.required = true := hR r (by simp)
    have step : ¬ requiredCmp r x > 0 := by simp [requiredCmp, hr, hx]
    show (if requiredCmp r x > 0 then x :: r :: (R2 ++ N)
          else r :: jsInsert requiredCmp x (R2 ++ N)) = r :: (R2 ++ x :: N)
    rw [if_neg step, ih N (fun y hy => hR y (by simp [hy])) hN]

theorem jsInsert_not_required {x : RMField} (hx : x.required = false)
    (l : List RMField) : jsInsert requiredCmp x l = l ++ [x] := by
  induction l with
  | nil => rfl
  | cons y l ih =>
    have hcmp : ¬ requiredCmp y x > 0 := by
      cases hy : y.required <;> simp [requiredCmp, hy, hx]
    simp only [jsInsert, if_neg hcmp, ih, List.cons_append]

theorem sortFold_partition (l : List RMField) :
    ∀ (R N : List RMField), (∀ y ∈ R, y.required = true) → (∀ y ∈ N, y.required = false) →
      l.foldl (fun acc x => jsInsert requiredCmp x acc) (R ++ N)
        = (R ++ l.filter (fun f => f.required)) ++ (N ++ l.filter (fun f => !f.required)) := by
  induction l with
  | nil => intro R N _ _; simp
  | cons x l ih =>
    intro R N hR hN
    cases hx : x.required with
    | true =>
      have hins : jsInsert requiredCmp x (R ++ N) = (R ++ [x]) ++ N := by
        rw [jsInsert_required hx R N hR hN]; simp
      have hR2 : ∀ y ∈ R ++ [x], y.required = true := by
        intro y hy
        rcases List.mem_append.mp hy with hy | hy
        · exact hR y hy
        · simp at hy; subst hy; exact hx
      simp only [List.foldl_cons, hins, ih (R ++ [x]) N hR2 hN]
      simp [List.filter_cons, hx]
    | false =>
      have hins : jsInsert requiredCmp x (R ++ N) = R ++ (N ++ [x]) := by
        rw [jsInsert_not_required hx]; simp
      have hN2 : ∀ y ∈ N ++ [x], y.required = false := by
        intro y hy
        rcases List.mem_append.mp hy with hy | hy
        · exact hN y hy
        · simp at hy; subst hy; exact hx
      simp only [List.foldl_cons, hins, ih R (N ++ [x]) hR hN2]
      simp [List.filter_cons, hx]

theorem jsSort_requiredCmp_partition (l : List RMField) :
    jsSort requiredCmp l
      = l.filter (fun f => f.required) ++ l.filter (fun f => !f.required) := by
  have h := sortFold_partition l [] [] (by simp) (by simp)
  simpa [jsSort] using h

/-- C7: both field derivations place every required field before every
non-required field while preserving the original relative order among
fields of equal requiredness: each result is exactly the required fields
in their original order followed by the non-required fields in their
original order. -/
theorem c7_required_fields_sorted_stably (params : List ParamSpec)
    (props : List BodyProp) (required : List String) :
    deriveParamFields params
      = (params.map paramField).filter (fun f => f.required)
        ++ (params.map paramField).filter (fun f => !f.required)
    ∧ deriveBodyFields props required
      = (props.map (bodyField required)).filter (fun f => f.required)
        ++ (props.map (bodyField required)).filter (fun f => !f.required) :=
  ⟨jsSort_requiredCmp_partition _, jsSort_requiredCmp_partition _⟩

end SuperiorApisProofs

namespace SuperiorApisProofs

/-! Descriptor cache behaviour (C4). -/

theorem timeKey_ne_cacheKey (s : String) : s ++ "_timestamp" ≠ s := by
  intro h
  have hl := congrArg (fun x => x.data.length) h
  simp [String.data_append] at hl

/-- C4: the cache keys entries by the first 20 characters of the token;
starting from an empty store, the first call fetches and stores the
response under that key, a second call less than 5 minutes later returns
the cached response without an upstream call and leaves the store
unchanged, and a call 5 minutes or more after the cached fetch issues a
second upstream call and overwrites the entry.  (The fetched response is
assumed truthy — an HTTP JSON object — and the clock positive, as the
source's truthiness guards require.) -/
theorem c4_descriptor_cache_five_minutes (token : String) (t0 t1 t2 : Int)
    (r1 r2 : JVal) (hr1 : jsTruthy r1 = true) (ht0 : 0 < t0)
    (h1 : t1 - t0 < CACHE_DURATION) (h2 : CACHE_DURATION ≤ t2 - t0) :
    getPluginListCached (fun _ => none) token t0 r1
      = (r1, cacheStoreAfter (fun _ => none) token t0 r1, true)
    ∧ cacheStoreAfter (fun _ => none) token t0 r1 (cacheKeyOf token) = some r1
    ∧ getPluginListCached (cacheStoreAfter (fun _ => none) token t0 r1) token t1 r2
      = (r1, cacheStoreAfter (fun _ => none) token t0 r1, false)
    ∧ getPluginListCached (cacheStoreAfter (fun _ => none) token t0 r1) token t2 r2
      = (r2, cacheStoreAfter (cacheStoreAfter (fun _ => none) token t0 r1) token t2 r2, true)
    ∧ cacheStoreAfter (cacheStoreAfter (fun _ => none) token t0 r1) token t2 r2
        (cacheKeyOf token) = some r2 := by
  have hne : cacheKeyOf token ≠ cacheKeyOf token ++ "_timestamp" :=
    Ne.symm (timeKey_ne_cacheKey _)
  have hatk : ∀ (base : String → Option JVal) (now : Int) (resp : JVal),
      cacheStoreAfter base token now resp (cacheKeyOf token) = some resp := by
    intro base now resp
    unfold cacheStoreAfter
    rw [if_neg hne, if_pos rfl]
  have hatt : ∀ (base : String → Option JVal) (now : Int) (resp : JVal),
      cacheStoreAfter base token now resp (cacheKeyOf token ++ "_timestamp")
        = some (.num now) := by
    intro base now resp
    unfold cacheStoreAfter
    rw [if_pos rfl]
  have ht0ne : (t0 == 0) = false := by
    simp
    omega
  refine ⟨rfl, hatk _ _ _, ?_, ?_, hatk _ _ _⟩
  · show (let cacheKey := cacheKeyOf token
          let cacheTimeKey := cacheKey ++ "_timestamp"
          let cached := cacheStoreAfter (fun _ => none) token t0 r1 cacheKey
          let ctime := cacheStoreAfter (fun _ => none) token t0 r1 cacheTimeKey
          let valid : Bool :=
            (match cached with | some v => jsTruthy v | none => false) &&
            (match ctime with | some v => jsTruthy v | none => false) &&
            (match ctime with
              | some (.num t) => decide (t1 - t < CACHE_DURATION)
              | _ => false)
          if valid then
            (cached.getD .null, cacheStoreAfter (fun _ => none) token t0 r1, false)
          else
            (r2, cacheStoreAfter (cacheStoreAfter (fun _ => none) token t0 r1) token t1 r2,
             true))
      = (r1, cacheStoreAfter (fun _ => none) token t0 r1, false)
    simp only [hatk, hatt]
    have htr : jsTruthy (JVal.num t0) = true := by
      simp [jsTruthy]
      omega
    simp [hr1, htr, h1]
  · show (let cacheKey := cacheKeyOf token
          let cacheTimeKey := cacheKey ++ "_timestamp"
          let cached := cacheStoreAfter (fun _ => none) token t0 r1 cacheKey
          let ctime := cacheStoreAfter (fun _ => none) token t0 r1 cacheTimeKey
          let valid : Bool :=
            (match cached with | some v => jsTruthy v | none => false) &&
            (match ctime with | some v => jsTruthy v | none => false) &&
            (match ctime with
              | some (.num t) => decide (t2 - t < CACHE_DURATION)
              | _ => false)
          if valid then
            (cached.getD .null, cacheStoreAfter (fun _ => none) token t0 r1, false)
          else
            (r2, cacheStoreAfter (cacheStoreAfter (fun _ => none) token t0 r1) token t2 r2,
             true))
      = (r2, cacheStoreAfter (cacheStoreAfter (fun _ => none) token t0 r1) token t2 r2, true)
    simp only [hatk, hatt]
    have htr : jsTruthy (JVal.num t0) = true := by
      simp [jsTruthy]
      omega
    have hlt : ¬ (t2 - t0 < CACHE_DURATION) := by omega
    simp [hr1, htr, hlt]

/-- Witness for C4 at a concrete token, clock and responses. -/
theorem c4_descriptor_cache_five_minutes_witness :
    getPluginListCached (fun _ => none) "tok" 1000 (.obj [("plugins", .arr [])])
      = (.obj [("plugins", .arr [])],
         cacheStoreAfter (fun _ => none) "tok" 1000 (.obj [("plugins", .arr [])]), true)
    ∧ cacheStoreAfter (fun _ => none) "tok" 1000 (.obj [("plugins", .arr [])])
        (cacheKeyOf "tok") = some (.obj [("plugins", .arr [])])
    ∧ getPluginListCached
        (cacheStoreAfter (fun _ => none) "tok" 1000 (.obj [("plugins", .arr [])]))
        "tok" 2000 (.str "second")
      = (.obj [("plugins", .arr [])],
         cacheStoreAfter (fun _ => none) "tok" 1000 (.obj [("plugins", .arr [])]), false)
    ∧ getPluginListCached
        (cacheStoreAfter (fun _ => none) "tok" 1000 (.obj [("plugins", .arr [])]))
        "tok" 400000 (.str "second")
      = (.str "second",
         cacheStoreAfter
           (cacheStoreAfter (fun _ => none) "tok" 1000 (.obj [("plugins", .arr [])]))
           "tok" 400000 (.str "second"), true)
    ∧ cacheStoreAfter
        (cacheStoreAfter (fun _ => none) "tok" 1000 (.obj [("plugins", .arr [])]))
        "tok" 400000 (.str "second") (cacheKeyOf "tok") = some (.str "second") :=
  c4_descriptor_cache_five_minutes "tok" 1000 2000 400000 (.obj [("plugins", .arr [])])
    (.str "second") rfl (by decide) (by decide) (by decide)

/-! Scenario Loader outcomes (C6). -/

/-- C6: under a non-empty selection and method, the first option of the
returned list is always the `no_use_scenario` sentinel, in every outcome;
and when the scenario-list call reaches the network and returns success
status 1 with an empty `data.list`, the result is exactly the sentinel
followed by the no-templates option for the upper-cased method. -/
theorem c6_scenario_loader_options (apiSelection method : String)
    (listCall : Option JVal) (details : JVal → Option JVal)
    (ha : apiSelection ≠ "") (hm : method ≠ "") :
    (getScenarioList apiSelection method listCall details).head? = some useDefaultOption
    ∧ (∀ (pd : JVal) (pf : String × JVal) (resp : JVal),
        decodePluginJson apiSelection = some pd →
        firstPathOf pd = .ok pf →
        defaultBodyWalkThrows (pf.2.get (jsToLower method)) = false →
        listCall = some resp →
        resp.get "status" = some (.num 1) →
        (resp.get "data").bind (fun d => d.get "list") = some (.arr []) →
        getScenarioList apiSelection method listCall details
          = [useDefaultOption,
             (.str ("No scenario templates available for " ++ jsToUpper method ++ " method"),
              .str "no_scenario")]) := by
  constructor
  · unfold getScenarioList
    rw [if_neg (by simp [ha, hm])]
    split
    · rfl
    · split
      · rfl
      · dsimp only
        split
        · rfl
        · split
          · rfl
          · split
            · rfl
            · rfl
  · intro pd pf resp hdec hfp hw hlc hstatus hlist
    obtain ⟨p, pm⟩ := pf
    unfold getScenarioList
    rw [if_neg (by simp [ha, hm])]
    simp only [hdec, hfp, hw, hlc, Bool.false_eq_true, if_false]
    unfold scenarioListOf
    simp only [hstatus, hlist]
    rfl

/-- Witness for C6: a real encoded descriptor, a success response with an
empty list, and no detail calls. -/
theorem c6_scenario_loader_options_witness :
    (getScenarioList
        (encodePluginData ⟨.num 1, "iid", .str "1.0", .str "api",
          .obj [("paths", .obj [("/a", .obj [("get", .obj [])])])]⟩)
        "GET"
        (some (.obj [("status", .num 1), ("data", .obj [("list", .arr [])])]))
        (fun _ => none)).head? = some useDefaultOption
    ∧ getScenarioList
        (encodePluginData ⟨.num 1, "iid", .str "1.0", .str "api",
          .obj [("paths", .obj [("/a", .obj [("get", .obj [])])])]⟩)
        "GET"
        (some (.obj [("status", .num 1), ("data", .obj [("list", .arr [])])]))
        (fun _ => none)
      = [useDefaultOption,
         (.str "No scenario templates available for GET method", .str "no_scenario")] := by
  have h := c6_scenario_loader_options
    (encodePluginData ⟨.num 1, "iid", .str "1.0", .str "api",
      .obj [("paths", .obj [("/a", .obj [("get", .obj [])])])]⟩)
    "GET"
    (some (.obj [("status", .num 1), ("data", .obj [("list", .arr [])])]))
    (fun _ => none) (by decide) (by decide)
  refine ⟨h.1, ?_⟩
  have h2 := h.2
    (.obj [("id", .num 1), ("interfaceId", .str "iid"), ("version", .str "1.0"),
           ("name", .str "api"),
           ("interface", .obj [("paths", .obj [("/a", .obj [("get", .obj [])])])])])
    ("/a", .obj [("get", .obj [])])
    (.obj [("status", .num 1), ("data", .obj [("list", .arr [])])])
    rfl rfl rfl rfl rfl rfl
  exact h2

end SuperiorApisProofs

namespace SuperiorApisProofs

/-! MCP item handling (C10). -/

theorem mcpExecuteItem_length {it : McpItem} {env : McpItemEnv} {recs : List JVal}
    (h : mcpExecuteItem it env = .ok recs) : recs.length ≤ 1 := by
  unfold mcpExecuteItem at h
  split at h
  · cases h
  · split at h
    · dsimp only at h
      split at h
      · cases h
      · split at h
        · cases h; simp
        · cases h; simp
    · split at h
      · split at h
        · cases h
        · cases h; simp
      · cases h; simp

theorem mcpExecute_length {cof : Bool} :
    ∀ {items : List (McpItem × McpItemEnv)} {out : List JVal},
      mcpExecute cof items = .ok out → out.length ≤ items.length := by
  intro items
  induction items with
  | nil => intro out h; cases h; simp
  | cons p rest ih =>
    intro out h
    obtain ⟨it, env⟩ := p
    unfold mcpExecute at h
    split at h
    · next recs hrecs =>
      cases hrest : mcpExecute cof rest with
      | error e => rw [hrest] at h; cases h
      | ok rs =>
        rw [hrest] at h
        cases h
        have := ih hrest
        have := mcpExecuteItem_length hrecs
        simp only [List.length_append, List.length_cons]
        omega
    · split at h
      · cases hrest : mcpExecute cof rest with
        | error e => rw [hrest] at h; cases h
        | ok rs =>
          rw [hrest] at h
          cases h
          have := ih hrest
          simp only [List.length_cons]
          omega
      · cases h

/-- C10 (amended): an item whose connection type is neither `sse` nor
`http` and whose JSON-RPC envelope construction succeeds (its parameters
text parses when the operation requires it) appends no record and raises
no error — the batch result is as if the item were absent, so a
successful output has fewer entries than the input. -/
theorem c10_unknown_connection_type_dropped (it : McpItem) (env : McpItemEnv)
    (h1 : it.connectionType ≠ "sse") (h2 : it.connectionType ≠ "http")
    (hp : it.operation = "tools/call" ∨ it.operation = "prompts/get" →
      (parseJson it.parameters).isSome = true) :
    mcpExecuteItem it env = .ok []
    ∧ (∀ (cof : Bool) (rest : List (McpItem × McpItemEnv)),
        mcpExecute cof ((it, env) :: rest) = mcpExecute cof rest)
    ∧ (∀ (cof : Bool) (rest : List (McpItem × McpItemEnv)) (out : List JVal),
        mcpExecute cof ((it, env) :: rest) = .ok out →
        out.length < ((it, env) :: rest).length) := by
  have hitem : mcpExecuteItem it env = .ok [] := by
    have hreq : ∃ v, buildMcpRequest it env.now = .ok v := by
      unfold buildMcpRequest buildMcpParams
      by_cases hc : it.operation = "tools/call"
      · rw [if_pos hc]
        cases hps : parseJson it.parameters with
        | none =>
          have := hp (Or.inl hc)
          rw [hps] at this
          cases this
        | some v => exact ⟨_, rfl⟩
      · rw [if_neg hc]
        by_cases hr : it.operation = "resources/read"
        · rw [if_pos hr]; exact ⟨_, rfl⟩
        · rw [if_neg hr]
          by_cases hg : it.operation = "prompts/get"
          · rw [if_pos hg]
            cases hps : parseJson it.parameters with
            | none =>
              have := hp (Or.inr hg)
              rw [hps] at this
              cases this
            | some v => exact ⟨_, rfl⟩
          · rw [if_neg hg]; exact ⟨_, rfl⟩
    obtain ⟨v, hv⟩ := hreq
    unfold mcpExecuteItem
    rw [hv, if_neg h1, if_neg h2]
    rfl
  have hdrop : ∀ (cof : Bool) (rest : List (McpItem × McpItemEnv)),
      mcpExecute cof ((it, env) :: rest) = mcpExecute cof rest := by
    intro cof rest
    have hstep : mcpExecute cof ((it, env) :: rest)
        = match mcpExecuteItem it env with
          | .ok recs => (mcpExecute cof rest).map (fun rs => recs ++ rs)
          | .error msg =>
            if cof then
              (mcpExecute cof rest).map (fun rs => .obj [("error", .str msg)] :: rs)
            else .error msg := rfl
    rw [hstep, hitem]
    cases mcpExecute cof rest <;> rfl
  refine ⟨hitem, hdrop, ?_⟩
  intro cof rest out hout
  rw [hdrop] at hout
  have := mcpExecute_length hout
  simp only [List.length_cons]
  omega

/-- Witness for C10 (amended) at a concrete dropped item. -/
theorem c10_unknown_connection_type_dropped_witness :
    mcpExecuteItem ⟨"websocket", "tools/list", "", "", "", "{}"⟩ ⟨5, 60000, [], none⟩
      = .ok []
    ∧ mcpExecute false
        [(⟨"websocket", "tools/list", "", "", "", "{}"⟩, ⟨5, 60000, [], none⟩)]
      = mcpExecute false [] := by
  have h := c10_unknown_connection_type_dropped
    ⟨"websocket", "tools/list", "", "", "", "{}"⟩ ⟨5, 60000, [], none⟩
    (by decide) (by decide)
    (by intro hop; rcases hop with hop | hop <;> exact absurd hop (by decide))
  exact ⟨h.1, h.2.1 false []⟩

/-- C10 counterexample to the claim as stated: an item with an unknown
connection type can still raise an error, because the JSON-RPC envelope
is built — including the JSON.parse of the parameters text — before the
connection-type branch; with operation tools/call and unparseable
parameters the batch aborts. -/
theorem c10_counterexample_parse_error_before_branch :
    (mcpExecute false
        [(⟨"websocket", "tools/call", "t", "", "", "\x7b"⟩, ⟨5, 60000, [], none⟩)]).isOk
      = false := rfl

/-! SSE termination (C2). -/

theorem runSSEAux_time_le (events : List SSEEvent) :
    ∀ (timeout : Nat) (buffer : String) (acc : List JVal),
      (runSSEAux timeout buffer acc events).time ≤ timeout := by
  induction events with
  | nil => intro timeout buffer acc; exact le_refl _
  | cons ev rest ih =>
    intro timeout buffer acc
    cases ev with
    | chunk t s =>
      unfold runSSEAux
      try dsimp only
      by_cases ht : timeout ≤ t
      · rw [if_pos ht]
      · rw [if_neg ht]
        try dsimp only
        by_cases hr : (processChunk buffer acc s).2.2
        · rw [if_pos hr]
          try dsimp only
          omega
        · rw [if_neg hr]
          exact ih timeout _ _
    | streamEnd t =>
      unfold runSSEAux
      try dsimp only
      by_cases ht : timeout ≤ t
      · rw [if_pos ht]
      · rw [if_neg ht]
        try dsimp only
        omega
    | streamError t msg =>
      unfold runSSEAux
      try dsimp only
      by_cases ht : timeout ≤ t
      · rw [if_pos ht]
      · rw [if_neg ht]
        try dsimp only
        omega

/-- C2: the SSE accumulation loop always resolves no later than the
configured timeout, for every incoming stream — including one that never
sends a terminal marker; a chunk carrying a `[DONE]` payload resolves
immediately at its arrival time regardless of anything that follows; so
does a chunk carrying a JSON payload with a `result` key or an `error`
key; and a natural stream end before the timeout resolves at its own
arrival time. -/
theorem c2_sse_loop_terminates_by_timeout (timeout : Nat) (events : List SSEEvent) :
    (runSSE timeout events).time ≤ timeout
    ∧ (∀ (t : Nat) (rest : List SSEEvent), t < timeout →
        runSSE timeout (.chunk t "data: [DONE]\n\n" :: rest)
          = ⟨[], t, .terminal⟩)
    ∧ (∀ (t : Nat) (rest : List SSEEvent), t < timeout →
        runSSE timeout (.chunk t "data: \x7b\"result\":\x7b\"ok\":true\x7d\x7d\n\n" :: rest)
          = ⟨[.obj [("result", .obj [("ok", .bool true)])]], t, .terminal⟩)
    ∧ (∀ (t : Nat) (rest : List SSEEvent), t < timeout →
        runSSE timeout (.chunk t "data: \x7b\"error\":\x7b\"code\":-1\x7d\x7d\n\n" :: rest)
          = ⟨[.obj [("error", .obj [("code", .num (-1))])]], t, .terminal⟩)
    ∧ (∀ (t : Nat), t < timeout → runSSE timeout [.streamEnd t] = ⟨[], t, .ended⟩) := by
  refine ⟨runSSEAux_time_le events timeout "" [], ?_, ?_, ?_, ?_⟩
  · intro t rest ht
    unfold runSSE runSSEAux
    dsimp only
    rw [if_neg (by omega)]
    rfl
  · intro t rest ht
    unfold runSSE runSSEAux
    dsimp only
    rw [if_neg (by omega)]
    rfl
  · intro t rest ht
    unfold runSSE runSSEAux
    dsimp only
    rw [if_neg (by omega)]
    rfl
  · intro t ht
    unfold runSSE runSSEAux
    dsimp only
    rw [if_neg (by omega)]
    rfl

/-- Witness for C2 at a concrete timeout and streams. -/
theorem c2_sse_loop_terminates_by_timeout_witness :
    (runSSE 100 [.chunk 7 "data: junk\n\n"]).time ≤ 100
    ∧ runSSE 100 [.chunk 5 "data: [DONE]\n\n", .streamEnd 6] = ⟨[], 5, .terminal⟩
    ∧ runSSE 100 [.chunk 5 "data: \x7b\"result\":\x7b\"ok\":true\x7d\x7d\n\n"]
      = ⟨[.obj [("result", .obj [("ok", .bool true)])]], 5, .terminal⟩
    ∧ runSSE 100 [.streamEnd 9] = ⟨[], 9, .ended⟩ :=
  ⟨(c2_sse_loop_terminates_by_timeout 100 [.chunk 7 "data: junk\n\n"]).1,
   (c2_sse_loop_terminates_by_timeout 100 []).2.1 5 [.streamEnd 6] (by decide),
   (c2_sse_loop_terminates_by_timeout 100 []).2.2.1 5 [] (by decide),
   (c2_sse_loop_terminates_by_timeout 100 []).2.2.2.2 9 (by decide)⟩

/-! Decimal rendering inverts (stage 1 of the codec roundtrip, C5). -/

theorem digitChar_spec (k : Nat) (h : k < 10) :
    isDig (digitChar k) = true ∧ (digitChar k).toNat = 48 + k := by
  interval_cases k <;> exact ⟨rfl, rfl⟩

theorem natCharsAux_stable (n : Nat) :
    ∀ f1 f2, n < f1 → n < f2 → natCharsAux f1 n = natCharsAux f2 n := by
  induction n using Nat.strong_induction_on with
  | _ n ih =>
    intro f1 f2 h1 h2
    match f1, h1 with
    | g1 + 1, h1 =>
      match f2, h2 with
      | g2 + 1, h2 =>
        by_cases hn : n < 10
        · simp [natCharsAux, hn]
        · simp only [natCharsAux, if_neg hn]
          rw [ih (n / 10) (by omega) g1 g2 (by omega) (by omega)]

theorem natChars_unfold (n : Nat) :
    natChars n = if n < 10 then [digitChar n]
      else natChars (n / 10) ++ [digitChar (n % 10)] := by
  by_cases hn : n < 10
  · simp [natChars, natCharsAux, hn]
  · have h1 : natCharsAux (n + 1) n = natCharsAux n (n / 10) ++ [digitChar (n % 10)] := by
      show (if n < 10 then [digitChar n]
        else natCharsAux n (n / 10) ++ [digitChar (n % 10)]) = _
      rw [if_neg hn]
    show natCharsAux (n + 1) n = _
    rw [h1, natCharsAux_stable (n / 10) n (n / 10 + 1) (by omega) (by omega), if_neg hn]
    rfl

theorem natChars_all_digits (n : Nat) : ∀ c ∈ natChars n, isDig c = true := by
  induction n using Nat.strong_induction_on with
  | _ n ih =>
    rw [natChars_unfold]
    by_cases hn : n < 10
    · simp only [if_pos hn]
      intro c hc
      simp only [List.mem_singleton] at hc
      subst hc
      exact (digitChar_spec n hn).1
    · simp only [if_neg hn]
      intro c hc
      rcases List.mem_append.mp hc with hc | hc
      · exact ih (n / 10) (by omega) c hc
      · simp only [List.mem_singleton] at hc
        subst hc
        exact (digitChar_spec (n % 10) (by omega)).1

theorem natChars_ne_nil (n : Nat) : natChars n ≠ [] := by
  rw [natChars_unfold]
  by_cases hn : n < 10 <;> simp [hn]

theorem digVal_append_digit (ds : List Char) (c : Char) :
    digVal (ds ++ [c]) = 10 * digVal ds + (c.toNat - 48) := by
  simp [digVal, List.foldl_append]
  omega

theorem digVal_natChars (n : Nat) : digVal (natChars n) = n := by
  induction n using Nat.strong_induction_on with
  | _ n ih =>
    rw [natChars_unfold]
    by_cases hn : n < 10
    · simp only [if_pos hn]
      simp [digVal, (digitChar_spec n hn).2]
    · simp only [if_neg hn]
      rw [digVal_append_digit, ih (n / 10) (by omega), (digitChar_spec (n % 10) (by omega)).2]
      omega

theorem digRun_stop {rest : List Char} (h : numStop rest) : digRun rest = ([], rest) := by
  cases rest with
  | nil => rfl
  | cons c t =>
    simp only [numStop] at h
    simp [digRun, h]

theorem digRun_append {ds : List Char} (hds : ∀ c ∈ ds, isDig c = true)
    {rest : List Char} (hrest : numStop rest) : digRun (ds ++ rest) = (ds, rest) := by
  induction ds with
  | nil => simpa using digRun_stop hrest
  | cons c t ih =>
    have hc : isDig c = true := hds c (by simp)
    have ht := ih (fun x hx => hds x (by simp [hx]))
    simp [digRun, hc, ht]

theorem isDig_ne_minus {c : Char} (h : isDig c = true) : c ≠ '-' := by
  intro hc
  subst hc
  simp [isDig] at h

theorem readInt_intChars (i : Int) (rest : List Char) (h : numStop rest) :
    readInt (intChars i ++ rest) = some (i, rest) := by
  have hnn := natChars_ne_nil i.natAbs
  cases hnc : natChars i.natAbs with
  | nil => exact absurd hnc hnn
  | cons c t =>
    have hall : ∀ x ∈ c :: t, isDig x = true := by
      intro x hx
      exact natChars_all_digits i.natAbs x (by rw [hnc]; exact hx)
    have hdr : digRun (c :: (t ++ rest)) = (c :: t, rest) := by
      have := digRun_append hall h
      simpa using this
    have hdv : digVal (c :: t) = i.natAbs := by rw [← hnc, digVal_natChars]
    by_cases hi : i < 0
    · have harg : intChars i ++ rest = '-' :: (c :: (t ++ rest)) := by
        simp [intChars, hi, hnc]
      rw [harg]
      unfold readInt
      dsimp only
      rw [if_pos rfl, hdr]
      dsimp only
      rw [hdv]
      have hneg : -((i.natAbs : Nat) : Int) = i := by omega
      rw [hneg]
    · have harg : intChars i ++ rest = c :: (t ++ rest) := by
        simp [intChars, hi, hnc]
      rw [harg]
      unfold readInt
      dsimp only
      rw [if_neg (isDig_ne_minus (hall c (by simp))), hdr]
      dsimp only
      rw [hdv]
      have hpos : ((i.natAbs : Nat) : Int) = i := by omega
      rw [hpos]

/-! String escaping inverts (stage 2 of the codec roundtrip, C5). -/

theorem hexNib_hexChar : ∀ k, k < 16 → hexNib (hexChar k) = some k := by decide

theorem strBody_cons_plain (c : Char) (tail : List Char) (h1 : c ≠ '"')
    (h2 : c ≠ '\\') :
    strBody (c :: tail)
      = match strBody tail with
        | some (cs, rest) => some (c :: cs, rest)
        | none => none := by
  conv_lhs => rw [strBody.eq_def]
  dsimp only
  rw [if_neg h1, if_neg h2]

theorem strBody_cons_backslash {e u : Char} (tail : List Char) (hne : e ≠ 'u')
    (hu : unescCtrl e = some u) :
    strBody ('\\' :: e :: tail)
      = match strBody tail with
        | some (cs, rest) => some (u :: cs, rest)
        | none => none := by
  conv_lhs => rw [strBody.eq_def]
  dsimp only
  rw [if_neg (by decide : ¬ ('\\' : Char) = '"'), if_pos rfl, if_neg hne, hu]

theorem strBody_ctrl_escape (c : Char) (h8 : c.toNat < 32) (tail : List Char) :
    strBody ('\\' :: 'u' :: '0' :: '0' ::
        hexChar (c.toNat / 16) :: hexChar (c.toNat % 16) :: tail)
      = match strBody tail with
        | some (cs, rest) => some (c :: cs, rest)
        | none => none := by
  conv_lhs => rw [strBody.eq_def]
  dsimp only
  rw [if_neg (by decide : ¬ ('\\' : Char) = '"'), if_pos rfl, if_pos rfl]
  have hz : hexNib '0' = some 0 := rfl
  have hhi : hexNib (hexChar (c.toNat / 16)) = some (c.toNat / 16) :=
    hexNib_hexChar _ (by omega)
  have hlo : hexNib (hexChar (c.toNat % 16)) = some (c.toNat % 16) :=
    hexNib_hexChar _ (by omega)
  rw [hz, hhi, hlo]
  dsimp only
  have harith : ((0 * 16 + 0) * 16 + c.toNat / 16) * 16 + c.toNat % 16 = c.toNat := by
    omega
  rw [harith, if_pos (Or.inl (by omega) :
    c.toNat < 55296 ∨ (57343 < c.toNat ∧ c.toNat < 1114112)), Char.ofNat_toNat]

theorem strBody_escChar (c : Char) (tail : List Char) :
    strBody (escChar c ++ tail)
      = match strBody tail with
        | some (cs, rest) => some (c :: cs, rest)
        | none => none := by
  by_cases h1 : c = '"'
  · subst h1
    exact strBody_cons_backslash tail (by decide) rfl
  by_cases h2 : c = '\\'
  · subst h2
    exact strBody_cons_backslash tail (by decide) rfl
  by_cases h3 : c = Char.ofNat 8
  · subst h3
    have he : escChar (Char.ofNat 8) ++ tail = '\\' :: 'b' :: tail := by
      simp [escChar, h1, h2]
    rw [he]
    exact strBody_cons_backslash tail (by decide) rfl
  by_cases h4 : c = Char.ofNat 12
  · subst h4
    have he : escChar (Char.ofNat 12) ++ tail = '\\' :: 'f' :: tail := by
      simp [escChar, h1, h2, h3]
    rw [he]
    exact strBody_cons_backslash tail (by decide) rfl
  by_cases h5 : c = '\n'
  · subst h5
    exact strBody_cons_backslash tail (by decide) rfl
  by_cases h6 : c = '\r'
  · subst h6
    exact strBody_cons_backslash tail (by decide) rfl
  by_cases h7 : c = '\t'
  · subst h7
    exact strBody_cons_backslash tail (by decide) rfl
  by_cases h8 : c.toNat < 32
  · have he : escChar c ++ tail = '\\' :: 'u' :: '0' :: '0' ::
        hexChar (c.toNat / 16) :: hexChar (c.toNat % 16) :: tail := by
      simp [escChar, h1, h2, h3, h4, h5, h6, h7, h8]
    rw [he]
    exact strBody_ctrl_escape c h8 tail
  · have he : escChar c ++ tail = c :: tail := by
      simp [escChar, h1, h2, h3, h4, h5, h6, h7, h8]
    rw [he]
    exact strBody_cons_plain c tail h1 h2

theorem strBody_escape (cs : List Char) :
    ∀ rest, strBody (cs.flatMap escChar ++ ('"' :: rest)) = some (cs, rest) := by
  induction cs with
  | nil =>
    intro rest
    show strBody ('"' :: rest) = some ([], rest)
    conv_lhs => rw [strBody.eq_def]
    dsimp only
    rw [if_pos rfl]
  | cons c cs ih =>
    intro rest
    rw [List.flatMap_cons, List.append_assoc, strBody_escChar, ih]

theorem strBody_strChars_tail (s : String) (rest : List Char) :
    strBody (s.data.flatMap escChar ++ ('"' :: rest)) = some (s.data, rest) :=
  strBody_escape s.data rest

/-! Head characters of rendered values (stage 3 of the codec roundtrip,
C5). -/

theorem dropWs_cons {c : Char} {r : List Char} (h : jsonWs c = false) :
    dropWs (c :: r) = c :: r := by
  unfold dropWs
  rw [h]
  rfl

theorem isDig_bounds {c : Char} (h : isDig c = true) :
    48 ≤ c.toNat ∧ c.toNat ≤ 57 := by
  simpa [isDig] using h

theorem numHead_ne {c : Char} (hor : c = '-' ∨ isDig c = true) {d : Char}
    (hd : d.toNat ≠ 45 ∧ (d.toNat < 48 ∨ 57 < d.toNat)) : c ≠ d := by
  intro he
  subst he
  rcases hor with h | h
  · rw [h] at hd
    exact hd.1 rfl
  · have hb := isDig_bounds h
    omega

theorem numHead_ws {c : Char} (hor : c = '-' ∨ isDig c = true) : jsonWs c = false := by
  rcases hor with h | h
  · subst h; rfl
  · have hb := isDig_bounds h
    simp only [jsonWs, Bool.or_eq_false_iff]
    refine ⟨⟨⟨?_, ?_⟩, ?_⟩, ?_⟩ <;>
    · simp only [decide_eq_false_iff_not]
      intro he
      subst he
      exact absurd hb (by decide)

theorem intChars_cons (i : Int) :
    ∃ c0 t0, intChars i = c0 :: t0 ∧ (c0 = '-' ∨ isDig c0 = true) := by
  by_cases hi : i < 0
  · exact ⟨'-', natChars i.natAbs, by simp [intChars, hi], Or.inl rfl⟩
  · have hnn := natChars_ne_nil i.natAbs
    cases hnc : natChars i.natAbs with
    | nil => exact absurd hnc hnn
    | cons c t =>
      refine ⟨c, t, by simp [intChars, hi, hnc], Or.inr ?_⟩
      exact natChars_all_digits _ c (by rw [hnc]; simp)

theorem jChars_head (j : JVal) :
    ∃ c t, jChars j = c :: t ∧ jsonWs c = false ∧ c ≠ ']' ∧ c ≠ '}' := by
  cases j with
  | null => exact ⟨'n', _, rfl, rfl, by decide, by decide⟩
  | bool b =>
    cases b with
    | true => exact ⟨'t', _, rfl, rfl, by decide, by decide⟩
    | false => exact ⟨'f', _, rfl, rfl, by decide, by decide⟩
  | num i =>
    obtain ⟨c0, t0, hic, hor⟩ := intChars_cons i
    exact ⟨c0, t0, by simp [jChars, hic], numHead_ws hor,
      numHead_ne hor (by decide), numHead_ne hor (by decide)⟩
  | str s => exact ⟨'"', _, rfl, rfl, by decide, by decide⟩
  | arr es => exact ⟨'[', _, rfl, rfl, by decide, by decide⟩
  | obj fs => exact ⟨'{', _, rfl, rfl, by decide, by decide⟩

theorem jItemsChars_head (e : JVal) (es : List JVal) :
    ∃ t2, jItemsChars (e :: es) = jChars e ++ t2 := by
  cases es with
  | nil => exact ⟨[], by simp [jItemsChars]⟩
  | cons x xs => exact ⟨',' :: jItemsChars (x :: xs), rfl⟩

theorem jFieldsChars_head (k : String) (v : JVal) (fs : List (String × JVal)) :
    ∃ t2, jFieldsChars ((k, v) :: fs) = '"' :: t2 := by
  cases fs with
  | nil =>
    exact ⟨k.data.flatMap escChar ++ '"' :: ':' :: jChars v, by
      simp [jFieldsChars, strChars]⟩
  | cons p ps =>
    exact ⟨k.data.flatMap escChar ++ '"' :: ':' :: (jChars v ++ ',' :: jFieldsChars (p :: ps)), by
      simp [jFieldsChars, strChars]⟩

/-! The parser inverts the serializer (stage 4 of the codec roundtrip,
C5): mutual induction over the structure of the rendered value. -/

mutual

/-- Reading back a rendered value placed before a number-stopping
remainder yields the value and the remainder. -/
theorem rt_val (j : JVal) (fuel : Nat) (rest : List Char)
    (hf : (jChars j).length < fuel) (hrest : numStop rest) :
    parseV fuel (jChars j ++ rest) = some (j, rest) := by
  cases fuel with
  | zero => omega
  | succ f =>
    cases j with
    | null => rfl
    | bool b => cases b <;> rfl
    | num i =>
      obtain ⟨c0, t0, hic, hor⟩ := intChars_cons i
      have hcond : (c0 = '-' || isDig c0) = true := by
        rcases hor with h | h
        · simp [h]
        · simp [h]
      have hchars : jChars (.num i) = intChars i := by simp [jChars]
      conv_lhs => rw [parseV.eq_def]
      dsimp only
      rw [hchars, hic, List.cons_append, dropWs_cons (numHead_ws hor)]
      dsimp only
      rw [if_neg (numHead_ne hor (by decide)), if_neg (numHead_ne hor (by decide)),
        if_neg (numHead_ne hor (by decide)), if_neg (numHead_ne hor (by decide)),
        if_neg (numHead_ne hor (by decide)), if_neg (numHead_ne hor (by decide)),
        if_pos hcond, ← List.cons_append, ← hic, ← hchars]
      rw [hchars, readInt_intChars i rest hrest]
    | str s =>
      have hchars : jChars (.str s) = '"' :: (s.data.flatMap escChar ++ ['"']) := by
        simp [jChars, strChars]
      conv_lhs => rw [parseV.eq_def]
      dsimp only
      rw [hchars, List.cons_append, dropWs_cons (by decide)]
      dsimp only
      rw [if_neg (by decide), if_neg (by decide), if_neg (by decide), if_pos rfl,
        List.append_assoc, List.singleton_append, strBody_strChars_tail s rest]
    | arr es =>
      cases es with
      | nil => rfl
      | cons x xs =>
        obtain ⟨t2, ht2⟩ := jItemsChars_head x xs
        obtain ⟨c, t, hct, hws, hne1, hne2⟩ := jChars_head x
        have hsplit : jItemsChars (x :: xs) ++ ']' :: rest
            = c :: (t ++ (t2 ++ ']' :: rest)) := by
          rw [ht2, hct]
          simp [List.cons_append, List.append_assoc]
        have hchars : jChars (.arr (x :: xs))
            = '[' :: (jItemsChars (x :: xs) ++ [']']) := by
          simp [jChars]
        have hf2 : (jItemsChars (x :: xs)).length + 1 < f := by
          rw [hchars] at hf
          simp only [List.length_cons, List.length_append, List.length_singleton] at hf
          omega
        conv_lhs => rw [parseV.eq_def]
        dsimp only
        rw [hchars, List.cons_append, dropWs_cons (by decide)]
        dsimp only
        rw [if_neg (by decide), if_neg (by decide), if_neg (by decide),
          if_neg (by decide), if_pos rfl, List.append_assoc, List.singleton_append,
          hsplit, dropWs_cons hws]
        dsimp only
        rw [if_neg hne1, ← hsplit, rt_items x xs f rest hf2]
    | obj fs =>
      cases fs with
      | nil => rfl
      | cons p fs2 =>
        obtain ⟨k, v⟩ := p
        obtain ⟨t2, ht2⟩ := jFieldsChars_head k v fs2
        have hsplit : jFieldsChars ((k, v) :: fs2) ++ '}' :: rest
            = '"' :: (t2 ++ '}' :: rest) := by
          rw [ht2]
          simp [List.cons_append]
        have hchars : jChars (.obj ((k, v) :: fs2))
            = '{' :: (jFieldsChars ((k, v) :: fs2) ++ ['}']) := by
          simp [jChars]
        have hf2 : (jFieldsChars ((k, v) :: fs2)).length + 1 < f := by
          rw [hchars] at hf
          simp only [List.length_cons, List.length_append, List.length_singleton] at hf
          omega
        conv_lhs => rw [parseV.eq_def]
        dsimp only
        rw [hchars, List.cons_append, dropWs_cons (by decide)]
        dsimp only
        rw [if_neg (by decide), if_neg (by decide), if_neg (by decide),
          if_neg (by decide), if_neg (by decide), if_pos rfl, List.append_assoc,
          List.singleton_append, hsplit, dropWs_cons (by decide)]
        dsimp only
        rw [if_neg (by decide), ← hsplit, rt_fields k v fs2 f rest hf2]
termination_by fuel

/-- Reading back rendered comma-separated array elements followed by the
closing bracket yields the elements. -/
theorem rt_items (e : JVal) (es : List JVal) (fuel : Nat) (rest : List Char)
    (hf : (jItemsChars (e :: es)).length + 1 < fuel) :
    parseItems fuel (jItemsChars (e :: es) ++ ']' :: rest) = some (e :: es, rest) := by
  cases fuel with
  | zero => omega
  | succ f =>
    cases es with
    | nil =>
      have hchars : jItemsChars [e] = jChars e := by simp [jItemsChars]
      have hfe : (jChars e).length < f := by
        rw [hchars] at hf
        omega
      conv_lhs => rw [parseItems.eq_def]
      dsimp only
      rw [hchars, rt_val e f (']' :: rest) hfe rfl]
      dsimp only
      rw [dropWs_cons (by decide)]
      dsimp only
      rw [if_neg (by decide), if_pos rfl]
    | cons x xs =>
      have hchars : jItemsChars (e :: x :: xs)
          = jChars e ++ ',' :: jItemsChars (x :: xs) := by
        simp [jItemsChars]
      obtain ⟨t2, ht2⟩ := jItemsChars_head x xs
      obtain ⟨c, t, hct, hws, -, -⟩ := jChars_head x
      have hl : (jChars e).length < f ∧ (jItemsChars (x :: xs)).length + 1 < f := by
        rw [hchars] at hf
        simp only [List.length_append, List.length_cons] at hf
        omega
      have hdw : dropWs (jItemsChars (x :: xs) ++ ']' :: rest)
          = jItemsChars (x :: xs) ++ ']' :: rest := by
        rw [ht2, hct, List.cons_append, List.cons_append]
        exact dropWs_cons hws
      conv_lhs => rw [parseItems.eq_def]
      dsimp only
      rw [hchars, List.append_assoc, List.cons_append,
        rt_val e f (',' :: (jItemsChars (x :: xs) ++ ']' :: rest)) hl.1 rfl]
      dsimp only
      rw [dropWs_cons (by decide)]
      dsimp only
      rw [if_pos rfl, hdw, rt_items x xs f rest hl.2]
      try rfl
termination_by fuel

/-- Reading back rendered comma-separated object members followed by the
closing brace yields the members. -/
theorem rt_fields (k : String) (v : JVal) (fs : List (String × JVal)) (fuel : Nat)
    (rest : List Char) (hf : (jFieldsChars ((k, v) :: fs)).length + 1 < fuel) :
    parseFields fuel (jFieldsChars ((k, v) :: fs) ++ '}' :: rest)
      = some ((k, v) :: fs, rest) := by
  cases fuel with
  | zero => omega
  | succ f =>
    cases fs with
    | nil =>
      have hchars : jFieldsChars [(k, v)] = strChars k ++ ':' :: jChars v := by
        simp [jFieldsChars]
      have hfv : (jChars v).length < f := by
        rw [hchars] at hf
        simp only [List.length_append, List.length_cons] at hf
        omega
      obtain ⟨c, t, hct, hws, -, -⟩ := jChars_head v
      have hdw : dropWs (jChars v ++ '}' :: rest) = jChars v ++ '}' :: rest := by
        rw [hct, List.cons_append]
        exact dropWs_cons hws
      have hin : (strChars k ++ ':' :: jChars v) ++ '}' :: rest
          = '"' :: (k.data.flatMap escChar ++ ('"' :: (':' :: (jChars v ++ '}' :: rest)))) := by
        simp [strChars, List.cons_append, List.append_assoc, List.singleton_append]
      conv_lhs => rw [parseFields.eq_def]
      dsimp only
      rw [hchars, hin, dropWs_cons (by decide)]
      dsimp only
      rw [if_pos rfl, strBody_escape k.data (':' :: (jChars v ++ '}' :: rest))]
      dsimp only
      rw [dropWs_cons (by decide)]
      dsimp only
      rw [if_pos rfl, hdw, rt_val v f ('}' :: rest) hfv rfl]
      dsimp only
      rw [dropWs_cons (by decide)]
      dsimp only
      rw [if_neg (by decide), if_pos rfl]
      try rfl
    | cons p fs2 =>
      obtain ⟨k2, v2⟩ := p
      have hchars : jFieldsChars ((k, v) :: (k2, v2) :: fs2)
          = strChars k ++ ':' :: (jChars v ++ ',' :: jFieldsChars ((k2, v2) :: fs2)) := by
        simp [jFieldsChars]
      have hl : (jChars v).length < f
          ∧ (jFieldsChars ((k2, v2) :: fs2)).length + 1 < f := by
        rw [hchars] at hf
        simp only [List.length_append, List.length_cons] at hf
        omega
      obtain ⟨c, t, hct, hws, -, -⟩ := jChars_head v
      have hdw : dropWs (jChars v ++ ',' :: (jFieldsChars ((k2, v2) :: fs2) ++ '}' :: rest))
          = jChars v ++ ',' :: (jFieldsChars ((k2, v2) :: fs2) ++ '}' :: rest) := by
        rw [hct, List.cons_append]
        exact dropWs_cons hws
      obtain ⟨t2, ht2⟩ := jFieldsChars_head k2 v2 fs2
      have hdw2 : dropWs (jFieldsChars ((k2, v2) :: fs2) ++ '}' :: rest)
          = jFieldsChars ((k2, v2) :: fs2) ++ '}' :: rest := by
        rw [ht2, List.cons_append]
        exact dropWs_cons (by decide)
      have hin : (strChars k ++ ':' :: (jChars v ++ ',' :: jFieldsChars ((k2, v2) :: fs2)))
            ++ '}' :: rest
          = '"' :: (k.data.flatMap escChar ++ ('"' :: (':' :: (jChars v
            ++ ',' :: (jFieldsChars ((k2, v2) :: fs2) ++ '}' :: rest))))) := by
        simp [strChars, List.cons_append, List.append_assoc, List.singleton_append]
      conv_lhs => rw [parseFields.eq_def]
      dsimp only
      rw [hchars, hin, dropWs_cons (by decide)]
      dsimp only
      rw [if_pos rfl, strBody_escape k.data
        (':' :: (jChars v ++ ',' :: (jFieldsChars ((k2, v2) :: fs2) ++ '}' :: rest)))]
      dsimp only
      rw [dropWs_cons (by decide)]
      dsimp only
      rw [if_pos rfl, hdw,
        rt_val v f (',' :: (jFieldsChars ((k2, v2) :: fs2) ++ '}' :: rest)) hl.1 rfl]
      dsimp only
      rw [dropWs_cons (by decide)]
      dsimp only
      rw [if_pos rfl, hdw2, rt_fields k2 v2 fs2 f rest hl.2]
      try rfl
termination_by fuel

end

/-! JSON.parse inverts JSON.stringify (stage 5 of the codec roundtrip,
C5). -/

theorem parseChars_data_stringify (j : JVal) : parseChars (stringify j).data = some j := by
  have h := rt_val j ((jChars j).length + 1) [] (by omega) trivial
  rw [List.append_nil] at h
  show (match parseV ((jChars j).length + 1) (jChars j) with
    | some (j, r) => if dropWs r = [] then some j else none
    | none => none) = some j
  rw [h]
  rfl

/-! UTF-8 decoding inverts UTF-8 encoding on valid scalar values (stage 6
of the codec roundtrip, C5). -/

theorem utf8Char_decode (c : Char) (rest : List Nat) (cs : List Char)
    (ih : utf8Decode rest = some cs) :
    utf8Decode (utf8Char c ++ rest) = some (c :: cs) := by
  have hv : c.toNat < 55296 ∨ (57343 < c.toNat ∧ c.toNat < 1114112) := c.valid
  have hup : c.toNat < 1114112 := by
    rcases hv with h | h
    · omega
    · omega
  have hgap : c.toNat < 55296 ∨ 57343 < c.toNat := by
    rcases hv with h | h
    · exact Or.inl h
    · exact Or.inr h.1
  by_cases h1 : c.toNat < 128
  · have e1 : utf8Char c = [c.toNat] := by simp [utf8Char, h1]
    rw [e1, List.singleton_append]
    conv_lhs => rw [utf8Decode.eq_def]
    try dsimp only
    rw [if_pos h1, ih]
    simp only [Option.map]
    rw [Char.ofNat_toNat]
  · by_cases h2 : c.toNat < 2048
    · have e1 : utf8Char c = [192 + c.toNat / 64, 128 + c.toNat % 64] := by
        simp [utf8Char, h1, h2]
      rw [e1]
      simp only [List.cons_append, List.nil_append]
      conv_lhs => rw [utf8Decode.eq_def]
      try dsimp only
      rw [if_neg (by omega), if_pos (by omega :
        194 ≤ 192 + c.toNat / 64 ∧ 192 + c.toNat / 64 < 224)]
      try dsimp only
      rw [if_pos (by omega : 128 ≤ 128 + c.toNat % 64 ∧ 128 + c.toNat % 64 < 192), ih]
      simp only [Option.map]
      have e2 : (192 + c.toNat / 64 - 192) * 64 + (128 + c.toNat % 64 - 128) = c.toNat := by
        omega
      rw [e2, Char.ofNat_toNat]
    · by_cases h3 : c.toNat < 65536
      · have e1 : utf8Char c
            = [224 + c.toNat / 4096, 128 + c.toNat / 64 % 64, 128 + c.toNat % 64] := by
          simp [utf8Char, h1, h2, h3]
        rw [e1]
        simp only [List.cons_append, List.nil_append]
        conv_lhs => rw [utf8Decode.eq_def]
        try dsimp only
        rw [if_neg (by omega), if_neg (by omega), if_pos (by omega :
          224 ≤ 224 + c.toNat / 4096 ∧ 224 + c.toNat / 4096 < 240)]
        try dsimp only
        rw [if_pos (by omega :
          (128 ≤ 128 + c.toNat / 64 % 64 ∧ 128 + c.toNat / 64 % 64 < 192) ∧
          (128 ≤ 128 + c.toNat % 64 ∧ 128 + c.toNat % 64 < 192))]
        try dsimp only
        have e2 : (224 + c.toNat / 4096 - 224) * 4096 + (128 + c.toNat / 64 % 64 - 128) * 64
            + (128 + c.toNat % 64 - 128) = c.toNat := by omega
        rw [e2, if_pos (And.intro (by omega) hgap), ih]
        simp only [Option.map]
        rw [Char.ofNat_toNat]
      · have e1 : utf8Char c = [240 + c.toNat / 262144, 128 + c.toNat / 4096 % 64,
            128 + c.toNat / 64 % 64, 128 + c.toNat % 64] := by
          simp [utf8Char, h1, h2, h3]
        rw [e1]
        simp only [List.cons_append, List.nil_append]
        conv_lhs => rw [utf8Decode.eq_def]
        try dsimp only
        rw [if_neg (by omega), if_neg (by omega), if_neg (by omega), if_pos (by omega :
          240 ≤ 240 + c.toNat / 262144 ∧ 240 + c.toNat / 262144 < 245)]
        try dsimp only
        rw [if_pos (by omega :
          (128 ≤ 128 + c.toNat / 4096 % 64 ∧ 128 + c.toNat / 4096 % 64 < 192) ∧
          (128 ≤ 128 + c.toNat / 64 % 64 ∧ 128 + c.toNat / 64 % 64 < 192) ∧
          (128 ≤ 128 + c.toNat % 64 ∧ 128 + c.toNat % 64 < 192))]
        try dsimp only
        have e2 : (240 + c.toNat / 262144 - 240) * 262144
            + (128 + c.toNat / 4096 % 64 - 128) * 4096
            + (128 + c.toNat / 64 % 64 - 128) * 64 + (128 + c.toNat % 64 - 128)
            = c.toNat := by omega
        rw [e2, if_pos (by omega : 65536 ≤ c.toNat ∧ c.toNat < 1114112), ih]
        simp only [Option.map]
        rw [Char.ofNat_toNat]

theorem utf8Decode_flat (cs : List Char) : utf8Decode (cs.flatMap utf8Char) = some cs := by
  induction cs with
  | nil => rfl
  | cons c t ih =>
    rw [List.flatMap_cons]
    exact utf8Char_decode c _ t ih

theorem utf8Decode_utf8Encode (s : String) : utf8Decode (utf8Encode s) = some s.data :=
  utf8Decode_flat s.data

theorem utf8Char_lt_256 (c : Char) : ∀ b ∈ utf8Char c, b < 256 := by
  have hv : c.toNat < 55296 ∨ (57343 < c.toNat ∧ c.toNat < 1114112) := c.valid
  have hup : c.toNat < 1114112 := by
    rcases hv with h | h
    · omega
    · omega
  intro b hb
  by_cases h1 : c.toNat < 128
  · simp [utf8Char, h1] at hb
    omega
  · by_cases h2 : c.toNat < 2048
    · simp [utf8Char, h1, h2] at hb
      rcases hb with h | h <;> omega
    · by_cases h3 : c.toNat < 65536
      · simp [utf8Char, h1, h2, h3] at hb
        rcases hb with h | h | h <;> omega
      · simp [utf8Char, h1, h2, h3] at hb
        rcases hb with h | h | h | h <;> omega

theorem utf8Encode_lt_256 (s : String) : ∀ b ∈ utf8Encode s, b < 256 := by
  intro b hb
  rw [utf8Encode, List.mem_flatMap] at hb
  obtain ⟨c, -, hc⟩ := hb
  exact utf8Char_lt_256 c b hc

/-! Base64 decoding inverts base64 encoding on byte lists (stage 7 of the
codec roundtrip, C5). -/

theorem b64Val_b64Char (k : Nat) (h : k < 64) : b64Val (b64Char k) = some k := by
  interval_cases k <;> decide

theorem b64Char_ne_pad (k : Nat) (h : k < 64) : b64Char k ≠ '=' := by
  interval_cases k <;> decide

theorem b64_roundtrip_aux (n : Nat) :
    ∀ bs : List Nat, bs.length ≤ n → (∀ b ∈ bs, b < 256) →
      b64Decode (b64Encode bs) = some bs := by
  induction n with
  | zero =>
    intro bs hlen _
    cases bs with
    | nil => rfl
    | cons a t => simp at hlen
  | succ n ih =>
    intro bs hlen hb
    rcases bs with _ | ⟨a, _ | ⟨b, _ | ⟨c, rest⟩⟩⟩
    · rfl
    · have ha : a < 256 := hb a (by simp)
      have e1 : b64Encode [a] = [b64Char (a / 4), b64Char (a % 4 * 16), '=', '='] := by
        simp [b64Encode]
      rw [e1]
      conv_lhs => rw [b64Decode.eq_def]
      dsimp only
      rw [b64Val_b64Char (a / 4) (by omega), b64Val_b64Char (a % 4 * 16) (by omega)]
      dsimp only
      rw [if_pos rfl, if_pos (And.intro rfl rfl), if_pos (by omega)]
      have e2 : a / 4 * 4 + a % 4 * 16 / 16 = a := by omega
      rw [e2]
    · have ha : a < 256 := hb a (by simp)
      have hb2 : b < 256 := hb b (by simp)
      have e1 : b64Encode [a, b]
          = [b64Char (a / 4), b64Char (a % 4 * 16 + b / 16), b64Char (b % 16 * 4), '='] := by
        simp [b64Encode]
      rw [e1]
      conv_lhs => rw [b64Decode.eq_def]
      dsimp only
      rw [b64Val_b64Char (a / 4) (by omega), b64Val_b64Char (a % 4 * 16 + b / 16) (by omega)]
      dsimp only
      rw [if_neg (b64Char_ne_pad (b % 16 * 4) (by omega)),
        b64Val_b64Char (b % 16 * 4) (by omega)]
      dsimp only
      rw [if_pos rfl, if_pos rfl, if_pos (by omega)]
      have e2 : a / 4 * 4 + (a % 4 * 16 + b / 16) / 16 = a := by omega
      have e3 : (a % 4 * 16 + b / 16) % 16 * 16 + b % 16 * 4 / 4 = b := by omega
      rw [e2, e3]
    · have ha : a < 256 := hb a (by simp)
      have hb2 : b < 256 := hb b (by simp)
      have hc : c < 256 := hb c (by simp)
      have hrest : ∀ x ∈ rest, x < 256 := fun x hx => hb x (by simp [hx])
      have hlen2 : rest.length ≤ n := by
        simp only [List.length_cons] at hlen
        omega
      have e1 : b64Encode (a :: b :: c :: rest)
          = b64Char (a / 4) :: b64Char (a % 4 * 16 + b / 16)
            :: b64Char (b % 16 * 4 + c / 64) :: b64Char (c % 64) :: b64Encode rest := by
        simp [b64Encode]
      rw [e1]
      conv_lhs => rw [b64Decode.eq_def]
      dsimp only
      rw [b64Val_b64Char (a / 4) (by omega), b64Val_b64Char (a % 4 * 16 + b / 16) (by omega)]
      dsimp only
      rw [if_neg (b64Char_ne_pad (b % 16 * 4 + c / 64) (by omega)),
        b64Val_b64Char (b % 16 * 4 + c / 64) (by omega)]
      dsimp only
      rw [if_neg (b64Char_ne_pad (c % 64) (by omega)), b64Val_b64Char (c % 64) (by omega)]
      dsimp only
      rw [ih rest hlen2 hrest]
      dsimp only
      have e2 : a / 4 * 4 + (a % 4 * 16 + b / 16) / 16 = a := by omega
      have e3 : (a % 4 * 16 + b / 16) % 16 * 16 + (b % 16 * 4 + c / 64) / 4 = b := by omega
      have e4 : (b % 16 * 4 + c / 64) % 4 * 64 + c % 64 = c := by omega
      rw [e2, e3, e4]

theorem b64_roundtrip (bs : List Nat) (h : ∀ b ∈ bs, b < 256) :
    b64Decode (b64Encode bs) = some bs :=
  b64_roundtrip_aux bs.length bs (Nat.le_refl _) h

/-! The descriptor codec round-trips (stage 8, the C5 claim itself). -/

theorem decodePluginJson_encode (d : PluginData) :
    decodePluginJson (encodePluginData d) = some (pluginDataJson d) := by
  show (match b64Decode (b64Encode (utf8Encode (stringify (pluginDataJson d)))) with
    | none => none
    | some bytes =>
      match utf8Decode bytes with
      | none => none
      | some cs => parseChars cs) = some (pluginDataJson d)
  rw [b64_roundtrip _ (utf8Encode_lt_256 _)]
  dsimp only
  rw [utf8Decode_utf8Encode]
  dsimp only
  exact parseChars_data_stringify _

theorem pluginDataOfJson_pluginDataJson (d : PluginData) :
    pluginDataOfJson (pluginDataJson d) = some d := rfl

/-- C5: the descriptor codec round-trips.  For every descriptor value
d = {id, interfaceId, version, name, interface}, decoding the encoded
selection token (JSON.parse of the UTF-8 reading of the base64 bytes, the
operation every consumer performs on the option value built by getApiList)
yields exactly the descriptor object that was encoded, field for field:
decode(encode(d)) = d. -/
theorem c5_descriptor_codec_roundtrip (d : PluginData) :
    decodePluginData (encodePluginData d) = some d := by
  show (match decodePluginJson (encodePluginData d) with
    | some j => pluginDataOfJson j
    | none => none) = some d
  rw [decodePluginJson_encode]
  exact pluginDataOfJson_pluginDataJson d

end SuperiorApisProofs
